import Mathlib

/-!
# go-outlook: the session / request pipeline

A shallow embedding of `utils.go`, `errors.go`, `outlook.go`, `session.go` and
the list calls of `calendar.go` and `folder.go`, together with the parts of the
Go standard library they call (`net/url`, `strconv`, `net/http` request
construction), followed by theorems about them.

Go strings are byte sequences, so a string is a list of bytes here.  The
standard-library functions are transcribed from the Go sources (go1.20): every
branch that can change a result or raise an error is kept.
-/

set_option maxRecDepth 100000

namespace Outlook

/-- A Go `byte`. -/
abbrev Byte := Fin 256

/-- A Go `string`: an immutable sequence of bytes. -/
abbrev GoString := List Byte

/-- The byte of an ASCII character literal. -/
def ch (c : Char) : Byte := Fin.ofNat c.toNat

/-- The bytes of an ASCII string literal. -/
def str (s : String) : GoString := s.toList.map ch

/-- Go's `strings.IndexByte(s, c) >= 0`. -/
def containsByte (c : Byte) (s : GoString) : Bool := s.contains c

/-- Go's `strings.Cut(s, sep)` for a one-byte separator: the text before the
first `sep`, the text after it, and whether `sep` was found. -/
def cut (sep : Byte) : GoString → GoString × GoString × Bool
  | [] => ([], [], false)
  | c :: cs =>
    if c = sep then ([], cs, true)
    else
      let r := cut sep cs
      (c :: r.1, r.2.1, r.2.2)

/-- The pieces of `s` between occurrences of `sep` (Go's `strings.Split` for a
one-byte separator); never the empty list. -/
def splitOn (sep : Byte) : GoString → List GoString
  | [] => [[]]
  | c :: cs =>
    if c = sep then [] :: splitOn sep cs
    else
      match splitOn sep cs with
      | [] => [[c]]
      | s :: ss => (c :: s) :: ss

/-- Go's built-in `<=` on strings: bytewise lexicographic order. -/
def strLE : GoString → GoString → Bool
  | [], _ => true
  | _ :: _, [] => false
  | a :: as, b :: bs => if a < b then true else if b < a then false else strLE as bs

/-- Go's `sort.Strings`: the keys in ascending bytewise order. -/
def sortStrings (keys : List GoString) : List GoString :=
  keys.insertionSort (fun a b => strLE a b = true)

/-! ## Errors -/

/-- Errors raised while reading a response body or talking to the network;
they originate outside this package. -/
structure IOError where
  msg : GoString
  deriving DecidableEq, Repr

/-- The error type `ErrStatusCode` of `errors.go`.  `SuggestedRetryDuration`
is a `time.Duration`: a signed 64-bit count of nanoseconds. -/
structure ErrStatusCode where
  Code : Int
  Message : GoString
  SuggestedRetryDuration : Int
  deriving DecidableEq, Repr

/-- The values of Go's `error` interface that this package can return. -/
inductive GoError where
  /-- The package variable `ErrNoAccessToken`. -/
  | ErrNoAccessToken
  /-- A pointer to `ErrStatusCode`, built by `checkResponse`. -/
  | statusCode (e : ErrStatusCode)
  /-- The `fmt.Errorf("Body must be of type url.Values ...")` of `NewRequest`. -/
  | bodyNotValues
  /-- `net/url`: `EscapeError(s)`. -/
  | escapeError (s : GoString)
  /-- `net/url`: `InvalidHostError(s)`. -/
  | invalidHostError (s : GoString)
  /-- `net/url`: an error made with `errors.New` or `fmt.Errorf`. -/
  | urlError (msg : String)
  /-- `net/http`: invalid method. -/
  | invalidMethod (method : GoString)
  /-- An error of `encoding/json` (encoding a body, decoding a response). -/
  | jsonError (msg : GoString)
  /-- A failed read of a response body, or a failed round trip. -/
  | io (e : IOError)
  deriving DecidableEq, Repr

deriving instance DecidableEq for Except

/-! ## `net/url`: escaping -/

namespace url

/-- The `encoding` modes of `net/url`. -/
inductive encoding where
  | encodePath | encodePathSegment | encodeHost | encodeZone
  | encodeUserPassword | encodeQueryComponent | encodeFragment
  deriving DecidableEq, Repr

open encoding

/-- Go's `ishex`. -/
def ishex (c : Byte) : Bool :=
  (ch '0' ≤ c && c ≤ ch '9') || (ch 'a' ≤ c && c ≤ ch 'f') || (ch 'A' ≤ c && c ≤ ch 'F')

/-- Go's `unhex`. -/
def unhex (c : Byte) : Byte :=
  if ch '0' ≤ c ∧ c ≤ ch '9' then c - ch '0'
  else if ch 'a' ≤ c ∧ c ≤ ch 'f' then c - ch 'a' + 10
  else if ch 'A' ≤ c ∧ c ≤ ch 'F' then c - ch 'A' + 10
  else 0

/-- ASCII letters and digits. -/
def isAlnum (c : Byte) : Bool :=
  (ch 'a' ≤ c && c ≤ ch 'z') || (ch 'A' ≤ c && c ≤ ch 'Z') || (ch '0' ≤ c && c ≤ ch '9')

/-- Go's `shouldEscape(c, mode)`.  The byte 39 is the apostrophe and 34 the
double quote. -/
def shouldEscape (c : Byte) (mode : encoding) : Bool :=
  if isAlnum c then false
  else if (mode = encodeHost ∨ mode = encodeZone) ∧
      c ∈ (39 : Byte) :: 34 :: str "!$&()*+,;=:[]<>" then false
  else if c ∈ str "-_.~" then false
  else if c ∈ str "$&+,/:;=?@" then
    match mode with
    | encodePath => c = ch '?'
    | encodePathSegment => c = ch '/' || c = ch ';' || c = ch ',' || c = ch '?'
    | encodeUserPassword => c = ch '@' || c = ch '/' || c = ch '?' || c = ch ':'
    | encodeQueryComponent => true
    | encodeFragment => false
    | _ => true
  else if mode = encodeFragment ∧ c ∈ str "!()*" then false
  else true

/-- The table `upperhex` of `net/url`, indexed by a nibble. -/
def upperhex (n : Byte) : Byte := (str "0123456789ABCDEF").getD n.val 0

/-- What Go's `escape` writes for one byte. -/
def escapeByte (mode : encoding) (c : Byte) : GoString :=
  if shouldEscape c mode then
    if c = ch ' ' ∧ mode = encodeQueryComponent then [ch '+']
    else [ch '%', upperhex (c >>> 4), upperhex (c &&& 15)]
  else [c]

/-- Go's `escape(s, mode)`. -/
def escape (mode : encoding) (s : GoString) : GoString :=
  s.flatMap (escapeByte mode)

/-- Go's `url.QueryEscape`. -/
def QueryEscape (s : GoString) : GoString := escape encodeQueryComponent s

/-- Go's `unescape(s, mode)`.  The Go function first scans `s` for a malformed
escape or an invalid host byte and then rewrites it; both scans go left to
right, so one pass that stops at the first offending position returns the same
error or the same text. -/
def unescape (mode : encoding) : GoString → Except GoError GoString
  | [] => .ok []
  | c :: rest =>
    if c = ch '%' then
      match rest with
      | a :: b :: rest2 =>
        if ishex a && ishex b then
          if mode = encodeHost ∧ unhex a < 8 ∧ [c, a, b] ≠ str "%25" then
            .error (.escapeError [c, a, b])
          else if mode = encodeZone ∧ [c, a, b] ≠ str "%25" ∧
              (unhex a <<< 4 ||| unhex b) ≠ ch ' ' ∧
              shouldEscape (unhex a <<< 4 ||| unhex b) encodeHost then
            .error (.escapeError [c, a, b])
          else
            (unescape mode rest2).map (fun t => (unhex a <<< 4 ||| unhex b) :: t)
        else .error (.escapeError ((c :: rest).take 3))
      | _ => .error (.escapeError ((c :: rest).take 3))
    else if c = ch '+' then
      (unescape mode rest).map
        (fun t => (if mode = encodeQueryComponent then ch ' ' else ch '+') :: t)
    else if (mode = encodeHost ∨ mode = encodeZone) ∧ c.val < 128 ∧
        shouldEscape c encodeHost then
      .error (.invalidHostError [c])
    else (unescape mode rest).map (fun t => c :: t)

/-- Go's `url.QueryUnescape`. -/
def QueryUnescape (s : GoString) : Except GoError GoString :=
  unescape encodeQueryComponent s

/-! ## `net/url`: query values -/

end url

/-- Go's `map[string][]string` (`url.Values`, `http.Header`): the entries in
some enumeration order, one per key.  The nil map is the empty list. -/
abbrev Values := List (GoString × List GoString)

namespace Values

/-- The map index `v[key]`: the values of `key`, nil when `key` is absent. -/
def index (v : Values) (key : GoString) : List GoString :=
  match v with
  | [] => []
  | (k, vs) :: rest => if k = key then vs else index rest key

/-- The map store `v[key] = vs`. -/
def store (v : Values) (key : GoString) (vs : List GoString) : Values :=
  match v with
  | [] => [(key, vs)]
  | (k, old) :: rest => if k = key then (k, vs) :: rest else (k, old) :: store rest key vs

/-- Go's `Values.Get`: the first value of `key`, or the empty string. -/
def Get (v : Values) (key : GoString) : GoString :=
  match v.index key with
  | [] => []
  | x :: _ => x

/-- Go's `Values.Set`: `v[key] = []string{value}`. -/
def Set (v : Values) (key value : GoString) : Values := v.store key [value]

/-- Go's `Values.Add`: `v[key] = append(v[key], value)`. -/
def Add (v : Values) (key value : GoString) : Values := v.store key (v.index key ++ [value])

/-- One step of the inner loop of `Values.Encode`: write `key=value` to the
buffer, after a `&` when the buffer is not empty. -/
def encodePair (keyEscaped : GoString) (buf : GoString) (value : GoString) : GoString :=
  (if buf.length > 0 then buf ++ [ch '&'] else buf) ++ keyEscaped ++ [ch '='] ++
    url.QueryEscape value

/-- Go's `Values.Encode`: the pairs in ascending order of key. -/
def Encode (v : Values) : GoString :=
  if v.length = 0 then []
  else
    (sortStrings (v.map Prod.fst)).foldl
      (fun buf k => (v.index k).foldl (encodePair (url.QueryEscape k)) buf) []

end Values

namespace url

/-- The body of the loop of Go's `parseQuery` for one `&`-separated piece
`key`; the state is the map and the error remembered so far. -/
def parseQueryPiece (st : Values × Option GoError) (key : GoString) :
    Values × Option GoError :=
  if containsByte (ch ';') key then
    (st.1, some (.urlError "invalid semicolon separator in query"))
  else if key = [] then st
  else
    let kv := cut (ch '=') key
    match QueryUnescape kv.1 with
    | .error err1 => (st.1, if st.2 = none then some err1 else st.2)
    | .ok k =>
      match QueryUnescape kv.2.1 with
      | .error err1 => (st.1, if st.2 = none then some err1 else st.2)
      | .ok value => (st.1.Add k value, st.2)

/-- Go's `parseQuery(m, query)`.  The Go loop cuts `query` at the next `&`
until nothing is left, so it visits the `&`-separated pieces in order (a last
empty piece is skipped by its `key == ""` test, as it is here). -/
def parseQuery (m : Values) (query : GoString) : Values × Option GoError :=
  (splitOn (ch '&') query).foldl parseQueryPiece (m, none)

/-- Go's `url.ParseQuery`: the map is returned together with the first error. -/
def ParseQuery (query : GoString) : Values × Option GoError := parseQuery [] query

/-! ## `net/url`: parsing -/

/-- Go's `url.Userinfo`. -/
structure Userinfo where
  username : GoString
  password : GoString
  passwordSet : Bool
  deriving DecidableEq, Repr

/-- Go's `url.URL`. -/
structure URL where
  Scheme : GoString := []
  Opaque : GoString := []
  User : Option Userinfo := none
  Host : GoString := []
  Path : GoString := []
  RawPath : GoString := []
  OmitHost : Bool := false
  ForceQuery : Bool := false
  RawQuery : GoString := []
  Fragment : GoString := []
  RawFragment : GoString := []
  deriving DecidableEq, Repr

/-- Go's `stringContainsCTLByte`. -/
def stringContainsCTLByte (s : GoString) : Bool :=
  s.any (fun b => b < ch ' ' || b = 127)

/-- Go's `strings.HasPrefix`. -/
def startsWith (s pre : GoString) : Bool := pre.isPrefixOf s

/-- Go's `strings.LastIndexByte`, `none` for -1. -/
def lastIndexByte (c : Byte) : GoString → Option Nat
  | [] => none
  | x :: xs =>
    match lastIndexByte c xs with
    | some i => some (i + 1)
    | none => if x = c then some 0 else none

/-- Go's `strings.Index`, `none` for -1. -/
def indexSub (pat : GoString) : GoString → Option Nat
  | [] => if pat = [] then some 0 else none
  | x :: xs =>
    if pat.isPrefixOf (x :: xs) then some 0
    else (indexSub pat xs).map (fun i => i + 1)

/-- Go's `strings.ToLower` on ASCII text. -/
def toLower (s : GoString) : GoString :=
  s.map (fun c => if ch 'A' ≤ c ∧ c ≤ ch 'Z' then c + 32 else c)

/-- The loop of Go's `getScheme`, at index `i` with `rest = rawURL[i:]`. -/
def getSchemeLoop (rawURL : GoString) : Nat → GoString → Except GoError (GoString × GoString)
  | _, [] => .ok ([], rawURL)
  | i, c :: cs =>
    if (ch 'a' ≤ c ∧ c ≤ ch 'z') ∨ (ch 'A' ≤ c ∧ c ≤ ch 'Z') then
      getSchemeLoop rawURL (i + 1) cs
    else if (ch '0' ≤ c ∧ c ≤ ch '9') ∨ c = ch '+' ∨ c = ch '-' ∨ c = ch '.' then
      if i = 0 then .ok ([], rawURL) else getSchemeLoop rawURL (i + 1) cs
    else if c = ch ':' then
      if i = 0 then .error (.urlError "missing protocol scheme")
      else .ok (rawURL.take i, cs)
    else .ok ([], rawURL)

/-- Go's `getScheme`: the scheme and the rest of the URL. -/
def getScheme (rawURL : GoString) : Except GoError (GoString × GoString) :=
  getSchemeLoop rawURL 0 rawURL

/-- Go's `validOptionalPort`. -/
def validOptionalPort (port : GoString) : Bool :=
  match port with
  | [] => true
  | c :: digits => c = ch ':' && digits.all (fun b => ch '0' ≤ b && b ≤ ch '9')

/-- Go's `validUserinfo`.  The byte 39 is the apostrophe. -/
def validUserinfo (s : GoString) : Bool :=
  s.all (fun r => url.isAlnum r || r ∈ (39 : Byte) :: str "-._:~!$&()*+,;=%@")

/-- Go's `parseHost`. -/
def parseHost (host : GoString) : Except GoError GoString :=
  if startsWith host (str "[") then
    match lastIndexByte (ch ']') host with
    | none => .error (.urlError "missing ']' in host")
    | some i =>
      if !validOptionalPort (host.drop (i + 1)) then
        .error (.urlError "invalid port after host")
      else
        match indexSub (str "%25") (host.take i) with
        | some zone =>
          match unescape .encodeHost (host.take zone) with
          | .error e => .error e
          | .ok host1 =>
            match unescape .encodeZone ((host.take i).drop zone) with
            | .error e => .error e
            | .ok host2 =>
              match unescape .encodeHost (host.drop i) with
              | .error e => .error e
              | .ok host3 => .ok (host1 ++ host2 ++ host3)
        | none => unescape .encodeHost host
  else if (match lastIndexByte (ch ':') host with
      | some i => !validOptionalPort (host.drop i)
      | none => false) then
    .error (.urlError "invalid port after host")
  else unescape .encodeHost host

/-- Go's `parseAuthority`. -/
def parseAuthority (authority : GoString) : Except GoError (Option Userinfo × GoString) :=
  match lastIndexByte (ch '@') authority with
  | none => (parseHost authority).map (fun host => (none, host))
  | some i =>
    match parseHost (authority.drop (i + 1)) with
    | .error e => .error e
    | .ok host =>
      let userinfo := authority.take i
      if !validUserinfo userinfo then .error (.urlError "net/url: invalid userinfo")
      else if !containsByte (ch ':') userinfo then
        (unescape .encodeUserPassword userinfo).map
          (fun u => (some ⟨u, [], false⟩, host))
      else
        let up := cut (ch ':') userinfo
        match unescape .encodeUserPassword up.1 with
        | .error e => .error e
        | .ok username =>
          (unescape .encodeUserPassword up.2.1).map
            (fun password => (some ⟨username, password, true⟩, host))

/-- Go's `(*URL).setPath`. -/
def setPath (u : URL) (p : GoString) : Except GoError URL :=
  (unescape .encodePath p).map (fun path =>
    { u with Path := path, RawPath := if p = escape .encodePath path then [] else p })

/-- Go's `(*URL).setFragment`. -/
def setFragment (u : URL) (f : GoString) : Except GoError URL :=
  (unescape .encodeFragment f).map (fun frag =>
    { u with Fragment := frag, RawFragment := if f = escape .encodeFragment frag then [] else f })

/-- The second half of Go's `parse(rawURL, viaRequest)` with
`viaRequest = false`: what is done with the text `rest` before the query once
the scheme and the query are stored in `u`. -/
def parseAfterQuery (u : URL) (rest : GoString) : Except GoError URL :=
  if !startsWith rest (str "/") && u.Scheme ≠ [] then .ok { u with Opaque := rest }
  else if !startsWith rest (str "/") && containsByte (ch ':') (cut (ch '/') rest).1 then
    .error (.urlError "first path segment in URL cannot contain colon")
  else if (u.Scheme ≠ [] || !startsWith rest (str "///")) && startsWith rest (str "//") then
    let authority0 := rest.drop 2
    let authority := (cut (ch '/') authority0).1
    let rest2 := authority0.drop authority.length
    match parseAuthority authority with
    | .error e => .error e
    | .ok (user, host) => setPath { u with User := user, Host := host } rest2
  else
    setPath { u with OmitHost := u.Scheme ≠ [] && startsWith rest (str "/") } rest

/-- Go's `parse(rawURL, viaRequest)` with `viaRequest = false`. -/
def parse (rawURL : GoString) : Except GoError URL :=
  if stringContainsCTLByte rawURL then
    .error (.urlError "net/url: invalid control character in URL")
  else if rawURL = str "*" then .ok { Path := str "*" }
  else
    match getScheme rawURL with
    | .error e => .error e
    | .ok (scheme, rest0) =>
      let force := rest0.getLast? = some (ch '?') && rest0.count (ch '?') = 1
      parseAfterQuery
        { Scheme := toLower scheme, ForceQuery := force,
          RawQuery := if force then [] else (cut (ch '?') rest0).2.1 }
        (if force then rest0.dropLast else (cut (ch '?') rest0).1)

/-- Go's `url.Parse`: the fragment is cut off at the first `#`, the rest is
parsed, and the fragment is unescaped.  A failure is the underlying error (Go
wraps it in a `*url.Error`). -/
def Parse (rawURL : GoString) : Except GoError URL :=
  let c := cut (ch '#') rawURL
  match parse c.1 with
  | .error e => .error e
  | .ok u => if c.2.1 = [] then .ok u else setFragment u c.2.1

/-- Go's `ParseQuery(u.RawQuery)` with the error dropped, as in `(*URL).Query`
once the receiver has been dereferenced. -/
def URL.Query (u : URL) : Values := (ParseQuery u.RawQuery).1

/-- Go's `splitHostPort`, first component. -/
def splitHost (hostPort : GoString) : GoString :=
  let host :=
    match lastIndexByte (ch ':') hostPort with
    | some colon => if validOptionalPort (hostPort.drop colon) then hostPort.take colon else hostPort
    | none => hostPort
  if startsWith host (str "[") && host.getLast? = some (ch ']') then
    (host.drop 1).dropLast
  else host

/-- Go's `(*URL).Hostname`. -/
def URL.Hostname (u : URL) : GoString := splitHost u.Host

end url

/-! ## `strconv`, `fmt`, `time` -/

namespace strconv

/-- The two kinds of `*strconv.NumError` that `ParseInt` reports for base 10
and bit size 64. -/
inductive NumError where
  | ErrSyntax
  | ErrRange
  deriving DecidableEq, Repr

/-- The largest `uint64`. -/
def maxUint64 : Nat := 2 ^ 64 - 1

/-- The loop of Go's `ParseUint(s, 10, 64)` with `n` the number read so far.
A byte that is not a decimal digit is a syntax error (a letter is a digit of
value at least 10, refused by `d >= byte(base)`; an underscore is accepted
only for base 0). -/
def parseUintLoop : GoString → Nat → Nat × Option NumError
  | [], n => (n, none)
  | c :: cs, n =>
    if ch '0' ≤ c ∧ c ≤ ch '9' then
      let d := (c - ch '0').val
      if n ≥ maxUint64 / 10 + 1 then (maxUint64, some .ErrRange)
      else
        let n10 := n * 10 % 2 ^ 64
        let n1 := (n10 + d) % 2 ^ 64
        if n1 < n10 ∨ n1 > maxUint64 then (maxUint64, some .ErrRange)
        else parseUintLoop cs n1
    else (0, some .ErrSyntax)

/-- Go's `strconv.ParseUint(s, 10, 64)`: the value and the error. -/
def ParseUint (s : GoString) : Nat × Option NumError :=
  if s = [] then (0, some .ErrSyntax) else parseUintLoop s 0

/-- Go's `strconv.ParseInt(s, 10, 64)`: the value and the error.  On a range
error the value is the nearest `int64`; on a syntax error it is 0. -/
def ParseInt (s : GoString) : Int × Option NumError :=
  match s with
  | [] => (0, some .ErrSyntax)
  | c :: cs =>
    let neg := c = ch '-'
    let digits := if c = ch '+' ∨ c = ch '-' then cs else s
    match ParseUint digits with
    | (_, some .ErrSyntax) => (0, some .ErrSyntax)
    | (un, _) =>
      if ¬ neg ∧ un ≥ 2 ^ 63 then (2 ^ 63 - 1, some .ErrRange)
      else if neg ∧ un > 2 ^ 63 then (-(2 ^ 63), some .ErrRange)
      else if neg then (-(un : Int), none)
      else ((un : Int), none)

/-- The loop of Go's `formatBits` for base 10: the digits of `n`, most
significant first, in front of `acc`. -/
def formatLoop : Nat → Nat → GoString → GoString
  | 0, _, acc => acc
  | fuel + 1, n, acc =>
    if n < 10 then (ch '0' + Fin.ofNat n) :: acc
    else formatLoop fuel (n / 10) ((ch '0' + Fin.ofNat (n % 10)) :: acc)

/-- Go's `strconv.FormatInt(i, 10)`. -/
def FormatInt (i : Int) : GoString :=
  if i < 0 then ch '-' :: formatLoop (i.natAbs + 1) i.natAbs []
  else formatLoop (i.natAbs + 1) i.natAbs []

end strconv

/-- Go's `int64(x)` for a mathematical integer: wrap-around to 64 bits. -/
def wrapInt64 (x : Int) : Int := (x + 2 ^ 63) % 2 ^ 64 - 2 ^ 63

/-- Go's `time.Second`, in nanoseconds. -/
def Second : Int := 1000000000

/-- The dynamic values stored in a `map[string]interface{}` of query
parameters.  The list calls of this package store strings, `int64`s and
booleans; a value of any other type is carried with the text that the verb
`%v` prints for it. -/
inductive GoValue where
  | string (s : GoString)
  | int (i : Int)
  | bool (b : Bool)
  | other (text : GoString)
  deriving DecidableEq, Repr

/-- Go's `fmt.Sprintf("%v", val)`. -/
def sprintV : GoValue → GoString
  | .string s => s
  | .int i => strconv.FormatInt i
  | .bool b => if b then str "true" else str "false"
  | .other text => text

/-- A Go `map[string]interface{}`: `none` is the nil map, otherwise the
entries in the order in which `range` enumerates them. -/
abbrev Params := Option (List (GoString × GoValue))

/-- The entries that `range params` visits; none for the nil map. -/
def Params.entries (params : Params) : List (GoString × GoValue) := params.getD []

/-! ## `utils.go` -/

/-- A response body stream: the bytes it delivers and the error, if any, with
which reading stops before the end of the body. -/
structure BodyStream where
  data : GoString
  err : Option IOError := none
  deriving DecidableEq, Repr

/-- The parts of `*http.Response` that this package reads.  The keys of
`Header` are in canonical form, as `net/http` stores them. -/
structure Response where
  StatusCode : Int
  Header : Values := []
  Body : BodyStream := { data := [] }
  deriving DecidableEq, Repr

/-- Go's `ioutil.ReadAll(res.Body)`. -/
def ReadAll (body : BodyStream) : GoString × Option IOError := (body.data, body.err)

/-- The function `checkResponse` of `utils.go`; `none` is the nil error. -/
def checkResponse (res : Response) : Option GoError :=
  let status := res.StatusCode
  if status ≥ 200 ∧ status < 300 then none
  else
    let statusErr : ErrStatusCode := { Code := status, Message := [], SuggestedRetryDuration := 0 }
    match ReadAll res.Body with
    | (_, some err) => some (.io err)
    | (data, none) =>
      let statusErr := if data.length > 0 then { statusErr with Message := data } else statusErr
      let statusErr :=
        if statusErr.Code = 429 then
          let rawRetrySecs := res.Header.Get (str "Retry-After")
          if rawRetrySecs ≠ [] then
            let retrySecs := (strconv.ParseInt rawRetrySecs).1
            { statusErr with SuggestedRetryDuration := wrapInt64 (retrySecs * Second) }
          else statusErr
        else statusErr
      some (.statusCode statusErr)

/-- The function `createQueryString` of `utils.go`. -/
def createQueryString (params : Params) : GoString :=
  let query : Values :=
    params.entries.foldl (fun query kv => query.Set kv.1 (sprintV kv.2)) []
  let finalQuery := query.Encode
  if finalQuery = [] then [] else ch '?' :: finalQuery

/-- The outcome of running a Go function body that can panic. -/
inductive Outcome (α : Type) where
  | returned (value : α)
  | panicked (msg : String)
  deriving DecidableEq, Repr

/-- Go's method `(*URL).Query` on a pointer: it reads `u.RawQuery`, which
panics when the receiver is the nil pointer. -/
def url.URL.QueryOfPtr (u : Option url.URL) : Outcome Values :=
  match u with
  | none => .panicked "runtime error: invalid memory address or nil pointer dereference"
  | some u => .returned u.Query

/-- The function `parsePageLink` of `utils.go`.  `url.Parse` returns the nil
pointer together with its error, and the error is discarded. -/
def parsePageLink (link key : GoString) : Outcome GoString :=
  let parsed : Option url.URL :=
    match url.Parse link with
    | .ok u => some u
    | .error _ => none
  match url.URL.QueryOfPtr parsed with
  | .panicked msg => .panicked msg
  | .returned q => .returned (q.Get key)

/-! ## `net/http`: building a request -/

/-- The parts of `*http.Request` that this package sets.  `Body` is the
payload: the contents of the buffer handed to `http.NewRequest`. -/
structure Request where
  Method : GoString
  URL : url.URL
  Header : Values := []
  Body : GoString := []
  deriving DecidableEq, Repr

namespace http

/-- The token bytes of `httpguts.IsTokenRune`.  The byte 39 is the apostrophe
and 96 the backquote. -/
def isTokenByte (c : Byte) : Bool :=
  url.isAlnum c || c ∈ (39 : Byte) :: 96 :: str "!#$%&*+-.^_|~"

/-- Go's `validMethod`. -/
def validMethod (method : GoString) : Bool :=
  method.length > 0 && method.all isTokenByte

/-- Go's `removeEmptyPort`: a trailing `:` with no port is dropped. -/
def removeEmptyPort (host : GoString) : GoString :=
  let hasPort : Bool :=
    match url.lastIndexByte (ch ':') host, url.lastIndexByte (ch ']') host with
    | some i, some j => i > j
    | some _, none => true
    | none, _ => false
  if hasPort && host.getLast? = some (ch ':') then host.dropLast else host

/-- Go's `http.NewRequest(method, url, body)` for a body held in a
`*bytes.Buffer`; the context is `context.Background()`, which is never nil. -/
def NewRequest (method urlStr body : GoString) : Except GoError Request :=
  let method := if method = [] then str "GET" else method
  if !validMethod method then .error (.invalidMethod method)
  else
    match url.Parse urlStr with
    | .error err => .error err
    | .ok u => .ok { Method := method, URL := { u with Host := removeEmptyPort u.Host },
                     Header := [], Body := body }

end http

/-! ## `outlook.go` -/

/-- The constant `ClientVersion`. -/
def ClientVersion : GoString := str "0.1.0"

/-- The constant `DefaultBaseURL`. -/
def DefaultBaseURL : GoString := str "https://graph.microsoft.com/v1.0"

/-- The constant `DefaultOAuthTokenURL`. -/
def DefaultOAuthTokenURL : GoString :=
  str "https://login.microsoftonline.com/common/oauth2/v2.0/token"

/-- The constant `DefaultAuthScopes`. -/
def DefaultAuthScopes : GoString := str "mail.read calendars.read user.read offline_access"

/-- The constant `mediaType`. -/
def mediaType : GoString := str "application/json"

/-- The variable `DefaultUserAgent`: `fmt.Sprintf("go-outlook/%s", ClientVersion)`. -/
def DefaultUserAgent : GoString := str "go-outlook/" ++ ClientVersion

/-- The struct `Client`.  The field `baseURL` holds the text
`client.baseURL.String()`, the only use that the package makes of it; the
underlying `*http.Client` is the transport passed to `Client.Do`. -/
structure Client where
  baseURL : GoString
  userAgent : GoString
  mediaType : GoString
  appID : GoString := []
  appSecret : GoString := []
  redirectURI : GoString := []
  scope : GoString := []
  deriving DecidableEq, Repr

/-- The type `ClientOpt`. -/
abbrev ClientOpt := Client → Client

/-- The option `SetClientAppID`. -/
def SetClientAppID (appID : GoString) : ClientOpt :=
  fun c => { c with appID := appID }

/-- The option `SetClientAppSecret`. -/
def SetClientAppSecret (secret : GoString) : ClientOpt :=
  fun c => { c with appSecret := secret }

/-- The option `SetClientRedirectURI`. -/
def SetClientRedirectURI (uri : GoString) : ClientOpt :=
  fun c => { c with redirectURI := uri }

/-- The option `SetClientScope`. -/
def SetClientScope (scope : GoString) : ClientOpt :=
  fun c => { c with scope := scope }

/-- The option `SetClientMediaType`. -/
def SetClientMediaType (mType : GoString) : ClientOpt :=
  fun c => { c with mediaType := mType }

/-- The function `NewClient`; `url.Parse(DefaultBaseURL)` succeeds, and the
parsed URL prints as `DefaultBaseURL`. -/
def NewClient (opts : List ClientOpt) : Except GoError Client :=
  match url.Parse DefaultBaseURL with
  | .error err => .error err
  | .ok _ =>
    .ok (opts.foldl (fun client opt => opt client)
      { baseURL := DefaultBaseURL, userAgent := DefaultUserAgent,
        scope := DefaultAuthScopes, mediaType := mediaType })

/-- The method `Client.SetMediaType`. -/
def Client.SetMediaType (client : Client) (mType : GoString) : Client :=
  { client with mediaType := mType }

/-- A non-nil request body of type `interface{}`, as `NewRequest` observes
it: the result of the type assertion `body.(url.Values)` and the outcome of
`json.NewEncoder(buf).Encode(body)` (the text written, or the error). -/
structure Payload where
  asValues : Option Values
  json : Except GoString GoString
  deriving DecidableEq, Repr

/-- A request body of type `interface{}`; `none` is the nil interface. -/
abbrev Body := Option Payload

/-- The body encoding step of `Client.NewRequest`: the contents of
`encodedBody`, or the error with which `NewRequest` returns. -/
def Client.encodeBody (client : Client) (body : Body) : Except GoError GoString :=
  match body with
  | none => .ok []
  | some b =>
    if client.mediaType = str "application/json" then
      match b.json with
      | .error e => .error (.jsonError e)
      | .ok text => .ok text
    else if client.mediaType = str "application/x-www-form-urlencoded" then
      match b.asValues with
      | some v => .ok v.Encode
      | none => .error .bodyNotValues
    else .ok []

/-- The method `Client.NewRequest`. -/
def Client.NewRequest (client : Client) (method path : GoString) (body : Body) :
    Except GoError Request :=
  match url.Parse path with
  | .error err => .error err
  | .ok pathURL =>
    let fullURL := if pathURL.Hostname ≠ [] then path else client.baseURL ++ path
    match client.encodeBody body with
    | .error err => .error err
    | .ok encodedBody =>
      match http.NewRequest method fullURL encodedBody with
      | .error err => .error err
      | .ok req =>
        .ok { req with
          Header := ((req.Header.Add (str "Content-Type") client.mediaType).Add
            (str "Accept") Outlook.mediaType).Add (str "User-Agent") client.userAgent }

/-- The network as the package sees it: `client.client.Do(req)` either fails
or delivers a response. -/
abbrev Transport := Request → Except IOError Response

/-- The argument `v` of `Client.Do`: nil, an `io.Writer` (with the error, if
any, that its `Write` returns), or any other value, with the error, if any,
that `json.NewDecoder(body).Decode(v)` returns for a body. -/
inductive Target where
  | nil
  | writer (writeErr : Option IOError)
  | value (decode : BodyStream → Option GoError)

/-- What `Client.Do` did to its argument `v`. -/
inductive TargetEffect where
  | untouched
  | copied (data : GoString)
  | decoded (body : BodyStream)
  deriving DecidableEq, Repr

/-- The results of a call together with its observable effects: the requests
handed to the network, in order, and what was done to the target. -/
structure CallResult where
  response : Option Response
  err : Option GoError
  effect : TargetEffect := .untouched
  sent : List Request := []
  deriving DecidableEq, Repr

/-- The method `Client.Do`.  The deferred `response.Body.Close()` assigns its
error to the local variable `err` after the results have been set, so it does
not change what is returned. -/
def Client.Do (rt : Transport) (req : Request) (v : Target) : CallResult :=
  match rt req with
  | .error err => { response := none, err := some (.io err), sent := [req] }
  | .ok response =>
    match checkResponse response with
    | some err => { response := some response, err := some err, sent := [req] }
    | none =>
      match v with
      | .nil => { response := some response, err := none, sent := [req] }
      | .writer writeErr =>
        { response := some response,
          err := (match writeErr with
            | some e => some (.io e)
            | none => response.Body.err.map GoError.io),
          effect := .copied response.Body.data, sent := [req] }
      | .value decode =>
        { response := some response, err := decode response.Body,
          effect := .decoded response.Body, sent := [req] }

/-! ## `session.go` -/

/-- The struct `Session`. -/
structure Session where
  client : Client
  basePath : GoString
  accessToken : GoString := []
  refreshToken : GoString := []
  deriving DecidableEq, Repr

/-- The method `Session.query`. -/
def Session.query (rt : Transport) (session : Session) (method url : GoString)
    (params : Params) (data : Body) (result : Target) : CallResult :=
  let queryString := if params.isSome then createQueryString params else []
  let path := session.basePath ++ url ++ queryString
  match session.client.NewRequest method path data with
  | .error err => { response := none, err := some err }
  | .ok req =>
    if session.accessToken = [] then { response := none, err := some .ErrNoAccessToken }
    else
      let authorization := str "Bearer " ++ session.accessToken
      Client.Do rt { req with Header := req.Header.Set (str "Authorization") authorization }
        result

/-- The method `Session.Get`. -/
def Session.Get (rt : Transport) (session : Session) (url : GoString) (params : Params)
    (result : Target) : CallResult :=
  session.query rt (str "GET") url params none result

/-- The method `Session.Post`. -/
def Session.Post (rt : Transport) (session : Session) (url : GoString) (data : Body)
    (result : Target) : CallResult :=
  session.query rt (str "POST") url none data result

/-- The method `Session.Patch`. -/
def Session.Patch (rt : Transport) (session : Session) (url : GoString) (data : Body)
    (result : Target) : CallResult :=
  session.query rt (str "PATCH") url none data result

/-- The method `Session.Delete`. -/
def Session.Delete (rt : Transport) (session : Session) (url : GoString) (params : Params)
    (result : Target) : CallResult :=
  session.query rt (str "DELETE") url params none result

/-- The struct `RefreshTokenResponse` of `models.go`. -/
structure RefreshTokenResponse where
  AccessToken : GoString := []
  RefreshToken : GoString := []
  TokenType : GoString := []
  ExpiresIn : Int := 0
  Scope : GoString := []
  deriving DecidableEq, Repr

/-- The package `encoding/json` as `refreshAccessToken` uses it: what
`json.NewEncoder(buf).Encode` writes for a `url.Values`, and what
`json.NewDecoder(body).Decode` stores in a `RefreshTokenResponse` (or the
error it returns) for a response body. -/
structure JSONCodec where
  encodeValues : Values → Except GoString GoString
  decodeToken : BodyStream → Except GoError RefreshTokenResponse

/-- The form `body` that `refreshAccessToken` fills. -/
def Session.refreshBody (session : Session) : Values :=
  let body : Values := []
  let body := body.Set (str "client_id") session.client.appID
  let body := body.Set (str "client_secret") session.client.appSecret
  let body := body.Set (str "refresh_token") session.refreshToken
  let body := body.Set (str "redirect_uri") session.client.redirectURI
  let body := body.Set (str "scope") session.client.scope
  body.Set (str "grant_type") (str "refresh_token")

/-- The method `Session.refreshAccessToken`.  The client is shared through a
pointer, so the session returned carries the client as the call leaves it; the
second component is the error, `none` for nil.  The variable `tokenRes` starts
as the zero value and holds what the decoder stored in it. -/
def Session.refreshAccessToken (rt : Transport) (codec : JSONCodec) (session : Session) :
    Session × Option GoError :=
  let body := session.refreshBody
  let client1 := session.client.SetMediaType (str "application/x-www-form-urlencoded")
  match client1.NewRequest (str "POST") DefaultOAuthTokenURL
      (some ⟨some body, codec.encodeValues body⟩) with
  | .error err => ({ session with client := client1 }, some err)
  | .ok req =>
    let client2 := client1.SetMediaType Outlook.mediaType
    let done := Client.Do rt req
      (.value (fun b => match codec.decodeToken b with
        | .error e => some e
        | .ok _ => none))
    match done.err with
    | some err => ({ session with client := client2 }, some err)
    | none =>
      let tokenRes : RefreshTokenResponse :=
        match done.effect with
        | .decoded b =>
          (match codec.decodeToken b with
            | .ok t => t
            | .error _ => {})
        | _ => {}
      ({ session with client := client2, accessToken := tokenRes.AccessToken }, none)

/-- The function `NewSession`: the shared client as the call leaves it, and
the session or the error returned. -/
def NewSession (rt : Transport) (codec : JSONCodec) (client : Client)
    (refreshToken : GoString) : Client × Except GoError Session :=
  let session : Session :=
    { client := client, basePath := str "/me", refreshToken := refreshToken }
  match session.refreshAccessToken rt codec with
  | (s, some err) => (s.client, .error err)
  | (s, none) => (s.client, .ok s)

/-- The method `Client.NewSession`. -/
def Client.NewSession (rt : Transport) (codec : JSONCodec) (client : Client)
    (refreshToken : GoString) : Client × Except GoError Session :=
  match Outlook.NewSession rt codec client refreshToken with
  | (c, .error err) => (c, .error err)
  | (c, .ok session) => (c, .ok session)

/-! ## `calendar.go`, `folder.go`: the list calls -/

/-- The map assignment `params[key] = value` on a `map[string]interface{}`. -/
def storeParam (params : List (GoString × GoValue)) (key : GoString) (value : GoValue) :
    List (GoString × GoValue) :=
  match params with
  | [] => [(key, value)]
  | (k, old) :: rest =>
    if k = key then (k, value) :: rest else (k, old) :: storeParam rest key value

/-- What a list call did when it returned: the arguments with which it called
`Session.Get`, what that call returned and did, and the error that `Do`
returns (`none` for nil, in which case `Do` returns the decoded result). -/
structure ListCallOutcome where
  getPath : GoString
  getParams : Params
  call : CallResult
  err : Option GoError
  deriving DecidableEq, Repr

/-- The struct `CalendarService`. -/
structure CalendarService where
  session : Session
  basePath : GoString
  deriving DecidableEq, Repr

/-- The function `NewCalendarService`. -/
def NewCalendarService (session : Session) : CalendarService :=
  { session := session, basePath := str "/calendars" }

/-- The method `Session.Calendars`. -/
def Session.Calendars (session : Session) : CalendarService := NewCalendarService session

/-- The struct `CalendarListCall`. -/
structure CalendarListCall where
  service : CalendarService
  nextLink : GoString := []
  maxResults : Int
  deriving DecidableEq, Repr

/-- The method `CalendarService.List`. -/
def CalendarService.List (cs : CalendarService) : CalendarListCall :=
  { service := cs, maxResults := 10 }

/-- The method `CalendarListCall.MaxResults`. -/
def CalendarListCall.MaxResults (clc : CalendarListCall) (pageSize : Int) : CalendarListCall :=
  { clc with maxResults := pageSize }

/-- The method `CalendarListCall.NextLink`. -/
def CalendarListCall.NextLink (clc : CalendarListCall) (link : GoString) : CalendarListCall :=
  { clc with nextLink := link }

/-- The method `CalendarListCall.Do`.  The target `&result` is a pointer to a
`CalendarListResult`; `decode` is the error, if any, that the JSON decoder
returns for it.  A panic of `parsePageLink` ends the call. -/
def CalendarListCall.Do (rt : Transport) (decode : BodyStream → Option GoError)
    (clc : CalendarListCall) : Outcome ListCallOutcome :=
  let params : List (GoString × GoValue) :=
    [(str "$top", .int clc.maxResults), (str "$count", .bool true)]
  let built : Outcome (List (GoString × GoValue)) :=
    if clc.nextLink ≠ [] then
      match parsePageLink clc.nextLink (str "$skip") with
      | .panicked msg => .panicked msg
      | .returned value => .returned (storeParam params (str "$skip") (.string value))
    else .returned params
  match built with
  | .panicked msg => .panicked msg
  | .returned params =>
    let call := clc.service.session.Get rt clc.service.basePath (some params) (.value decode)
    .returned { getPath := clc.service.basePath, getParams := some params, call := call,
                err := call.err }

/-- The struct `FolderService`. -/
structure FolderService where
  session : Session
  basePath : GoString
  deriving DecidableEq, Repr

/-- The function `NewFolderService`. -/
def NewFolderService (session : Session) : FolderService :=
  { session := session, basePath := str "/mailFolders" }

/-- The method `Session.Folders`. -/
def Session.Folders (session : Session) : FolderService := NewFolderService session

/-- The struct `FolderListCall`. -/
structure FolderListCall where
  service : FolderService
  nextLink : GoString := []
  maxResults : Int
  deriving DecidableEq, Repr

/-- The method `FolderService.List`. -/
def FolderService.List (fs : FolderService) : FolderListCall :=
  { service := fs, maxResults := 10 }

/-- The method `FolderListCall.MaxResults`. -/
def FolderListCall.MaxResults (flc : FolderListCall) (pageSize : Int) : FolderListCall :=
  { flc with maxResults := pageSize }

/-- The method `FolderListCall.NextLink`. -/
def FolderListCall.NextLink (flc : FolderListCall) (link : GoString) : FolderListCall :=
  { flc with nextLink := link }

/-- The method `FolderListCall.Do`.  The target `&result` is a pointer to a
`FolderListResult`; `decode` is the error, if any, that the JSON decoder
returns for it.  A panic of `parsePageLink` ends the call. -/
def FolderListCall.Do (rt : Transport) (decode : BodyStream → Option GoError)
    (flc : FolderListCall) : Outcome ListCallOutcome :=
  let params : List (GoString × GoValue) :=
    [(str "$top", .int flc.maxResults), (str "$count", .bool true)]
  let built : Outcome (List (GoString × GoValue)) :=
    if flc.nextLink ≠ [] then
      match parsePageLink flc.nextLink (str "$skip") with
      | .panicked msg => .panicked msg
      | .returned value => .returned (storeParam params (str "$skip") (.string value))
    else .returned params
  match built with
  | .panicked msg => .panicked msg
  | .returned params =>
    let call := flc.service.session.Get rt flc.service.basePath (some params) (.value decode)
    .returned { getPath := flc.service.basePath, getParams := some params, call := call,
                err := call.err }

/-! ## Definitions used to state the properties -/

/-- The client that `NewClient()` returns when it is given no options. -/
def defaultClient : Client :=
  { baseURL := DefaultBaseURL, userAgent := DefaultUserAgent,
    scope := DefaultAuthScopes, mediaType := mediaType }

/-- The default client after `SetMediaType("application/x-www-form-urlencoded")`. -/
def formClient : Client :=
  defaultClient.SetMediaType (str "application/x-www-form-urlencoded")

/-- A network that answers every request with an empty `200` response. -/
def okTransport : Transport := fun _ => .ok { StatusCode := 200 }

/-- A session on the default client that holds no access token. -/
def unauthenticatedSession : Session := { client := defaultClient, basePath := str "/me" }

/-- The path that `Session.query` hands to `Client.NewRequest`. -/
def Session.fullPath (session : Session) (url : GoString) (params : Params) : GoString :=
  session.basePath ++ url ++ (if params.isSome then createQueryString params else [])

/-- The status codes for which `checkResponse` reports no error. -/
def isSuccess (status : Int) : Prop := 200 ≤ status ∧ status < 300

instance (status : Int) : Decidable (isSuccess status) := by
  unfold isSuccess
  infer_instance

/-- A decimal digit. -/
def isDigit (c : Byte) : Bool := ch '0' ≤ c && c ≤ ch '9'

/-- The number written by the decimal digits `ds` after the digits of `acc`. -/
def digitsFrom (acc : Nat) (ds : GoString) : Nat :=
  ds.foldl (fun n c => n * 10 + (c - ch '0').val) acc

/-- The text `s` without one leading sign. -/
def unsignedPart (s : GoString) : GoString :=
  match s with
  | [] => []
  | c :: cs => if c = ch '+' ∨ c = ch '-' then cs else s

/-- The integer of which `s` is a decimal text: an optional sign followed by
one or more decimal digits; `none` when `s` is not such a text. -/
def decimalValue (s : GoString) : Option Int :=
  if unsignedPart s ≠ [] ∧ (unsignedPart s).all isDigit = true then
    some (if s.head? = some (ch '-') then -(digitsFrom 0 (unsignedPart s) : Int)
      else (digitsFrom 0 (unsignedPart s) : Int))
  else none

/-- The number written by the digits with which the unsigned part of `s`
begins. -/
def leadingNumber (s : GoString) : Nat :=
  digitsFrom 0 ((unsignedPart s).takeWhile isDigit)

/-- The text `key=value` that `Values.Encode` writes for one pair. -/
def pairText (key value : GoString) : GoString :=
  url.QueryEscape key ++ ch '=' :: url.QueryEscape value

/-- The pieces, joined by `&`. -/
def joinAmp : List GoString → GoString
  | [] => []
  | [p] => p
  | p :: q :: ps => p ++ ch '&' :: joinAmp (q :: ps)

/-- The map `query` that `createQueryString` fills from its argument. -/
def queryOf (params : Params) : Values :=
  params.entries.foldl (fun query kv => query.Set kv.1 (sprintV kv.2)) []

/-- A `url.Values` as `createQueryString` builds it: the keys are distinct
and every key has exactly one value. -/
def Values.single (v : Values) : Prop :=
  (v.map Prod.fst).Nodup ∧ ∀ k ∈ v.map Prod.fst, ∃ x, v.index k = [x]

/-- The query component of a link: the text after the first `?` in the part
of the link before the first `#`. -/
def queryComponent (link : GoString) : GoString :=
  (cut (ch '?') (cut (ch '#') link).1).2.1

/-- The options that the package provides for `NewClient`. -/
def providedOpt (opt : ClientOpt) : Prop :=
  ∃ text, opt = SetClientAppID text ∨ opt = SetClientAppSecret text ∨
    opt = SetClientRedirectURI text ∨ opt = SetClientScope text ∨ opt = SetClientMediaType text

/-- The URL that `Client.NewRequest` asks `http.NewRequest` for: the path
itself when its host name is not empty, the base URL followed by the path
otherwise. -/
def Client.targetText (client : Client) (path : GoString) (pathURL : url.URL) : GoString :=
  if pathURL.Hostname ≠ [] then path else client.baseURL ++ path

/-- The URL that `http.NewRequest` stores for a parsed text. -/
def storedURL (u : url.URL) : url.URL := { u with Host := http.removeEmptyPort u.Host }

/-- The parse of `DefaultOAuthTokenURL`. -/
def tokenURL : url.URL :=
  { Scheme := str "https", Host := str "login.microsoftonline.com",
    Path := str "/common/oauth2/v2.0/token" }

/-- The JSON text of the empty object. -/
def emptyObjectText : GoString := [123, 125]

/-- The JSON text of an object whose only member is the access token `tok`;
the byte 34 is the double quote, 58 the colon, 123 and 125 the braces. -/
def tokenObjectText : GoString :=
  [123, 34] ++ str "access_token" ++ [34, 58, 34] ++ str "tok" ++ [34, 125]

/-- A JSON codec for the examples: it agrees with `encoding/json` on the two
response bodies used, the empty object and an object with an access token,
and refuses every other body. -/
def sampleCodec : JSONCodec :=
  { encodeValues := fun _ => .ok [],
    decodeToken := fun b =>
      if b.err ≠ none then .error (.jsonError (str "unexpected EOF"))
      else if b.data = emptyObjectText then .ok {}
      else if b.data = tokenObjectText then .ok { AccessToken := str "tok" }
      else .error (.jsonError (str "invalid character")) }

/-- A token endpoint that answers `200` with the given body. -/
def tokenTransport (body : GoString) : Transport :=
  fun _ => .ok { StatusCode := 200, Body := { data := body } }

/-- A network on which every round trip fails. -/
def downTransport : Transport := fun _ => .error ⟨str "dial tcp: connection refused"⟩

/-- The token request that `refreshAccessToken` builds for a session: a
form-encoded `POST` to `DefaultOAuthTokenURL`. -/
def tokenRequest (session : Session) : Request :=
  { Method := str "POST", URL := storedURL tokenURL,
    Header := [(str "Content-Type", [str "application/x-www-form-urlencoded"]),
      (str "Accept", [mediaType]), (str "User-Agent", [session.client.userAgent])],
    Body := session.refreshBody.Encode }

/-- The session after `refreshAccessToken` has put the media type back: the
client differs from the one before the call in its media type only, which is
the constant `mediaType`. -/
def Session.restored (session : Session) : Session :=
  { session with client := session.client.SetMediaType mediaType }

/-- The session that `NewSession` starts from. -/
def initialSession (client : Client) (refreshToken : GoString) : Session :=
  { client := client, basePath := str "/me", refreshToken := refreshToken }

/-- A client configured with a media type for which `Client.NewRequest` has
no encoding. -/
def plainTextClient : Client := defaultClient.SetMediaType (str "text/plain")

/-- A token endpoint that answers `404` with the body `Not Found`. -/
def notFoundTransport : Transport :=
  fun _ => .ok { StatusCode := 404, Body := { data := str "Not Found" } }

/-- A session on the default client that holds the access token `tok`. -/
def authenticatedSession : Session :=
  { client := defaultClient, basePath := str "/me", accessToken := str "tok" }

/-- The request that the default client builds for `GET /me/calendars?$top=10`. -/
def calendarsRequest : Request :=
  { Method := str "GET",
    URL := storedURL { Scheme := str "https", Host := str "graph.microsoft.com",
                       Path := str "/v1.0/me/calendars", RawQuery := str "%24top=10" },
    Header := [(str "Content-Type", [str "application/json"]),
      (str "Accept", [str "application/json"]),
      (str "User-Agent", [str "go-outlook/0.1.0"])] }

/-- The request with the header `Authorization` set to `Bearer ` followed by
the access token, as `Session.query` sets it. -/
def Request.authorized (req : Request) (accessToken : GoString) : Request :=
  { req with Header := req.Header.Set (str "Authorization") (str "Bearer " ++ accessToken) }

/-- The order of `sort.Strings` as a relation: bytewise `<=`. -/
def keyLE (a b : GoString) : Prop := strLE a b = true

instance (a b : GoString) : Decidable (keyLE a b) := by
  unfold keyLE
  infer_instance

/-- The query parameters of a list call as they should be for a page size and
a next link: the keys are distinct, `$top` is bound to the page size and
`$count` to `true`, and `$skip` is bound if and only if the next link is not
empty, then to the string that `parsePageLink(nextLink, "$skip")` returns. -/
def listParamsAsClaimed (params : List (GoString × GoValue)) (maxResults : Int)
    (nextLink : GoString) : Prop :=
  (params.map Prod.fst).Nodup ∧
  (∀ v, (str "$top", v) ∈ params ↔ v = .int maxResults) ∧
  (∀ v, (str "$count", v) ∈ params ↔ v = .bool true) ∧
  (str "$skip" ∈ params.map Prod.fst ↔ nextLink ≠ []) ∧
  (nextLink ≠ [] → ∃ value, parsePageLink nextLink (str "$skip") = .returned value ∧
    ∀ v, (str "$skip", v) ∈ params ↔ v = .string value)

/-- What a list call returns when it has called `Session.Get` with the given
parameters. -/
def listOutcome (rt : Transport) (decode : BodyStream → Option GoError) (session : Session)
    (basePath : GoString) (params : List (GoString × GoValue)) : ListCallOutcome :=
  { getPath := basePath, getParams := some params,
    call := session.Get rt basePath (some params) (.value decode),
    err := (session.Get rt basePath (some params) (.value decode)).err }

/-! ## Theorems -/

/-! ### C1: a session without an access token -/

/-- C1, as stated, fails: on a session whose access token is empty, `Get` with
the relative path `/calendars/%` does not fail with `ErrNoAccessToken` but
with the escape error of `url.Parse`, because `Session.query` builds the
request before it looks at the token. -/
theorem query_empty_token_reports_request_error :
    unauthenticatedSession.accessToken = [] ∧
    (unauthenticatedSession.Get okTransport (str "/calendars/%") none .nil).err
      = some (.escapeError (str "%")) ∧
    (unauthenticatedSession.Get okTransport (str "/calendars/%") none .nil).err
      ≠ some .ErrNoAccessToken := by
  decide

/-- C1, amended: on a session whose access token is empty every authenticated
call fails without any network call, returning no response and leaving the
target untouched; the error is `ErrNoAccessToken` when `Client.NewRequest`
accepts the composed path, method and body, and otherwise the error of
`Client.NewRequest`.  The four verbs are `Session.query` at a fixed method. -/
theorem query_empty_token_fails_without_network (rt : Transport) (session : Session)
    (method url : GoString) (params : Params) (data : Body) (result : Target)
    (htoken : session.accessToken = []) :
    (session.query rt method url params data result).sent = [] ∧
    (session.query rt method url params data result).response = none ∧
    (session.query rt method url params data result).effect = .untouched ∧
    (session.query rt method url params data result).err =
      some (match session.client.NewRequest method (session.fullPath url params) data with
        | .ok _ => GoError.ErrNoAccessToken
        | .error err => err) ∧
    session.Get rt url params result = session.query rt (str "GET") url params none result ∧
    session.Post rt url data result = session.query rt (str "POST") url none data result ∧
    session.Patch rt url data result = session.query rt (str "PATCH") url none data result ∧
    session.Delete rt url params result
      = session.query rt (str "DELETE") url params none result := by
  have hq : session.query rt method url params data result =
      match session.client.NewRequest method (session.fullPath url params) data with
      | .error err => { response := none, err := some err }
      | .ok _ => { response := none, err := some .ErrNoAccessToken } := by
    simp only [Session.query, Session.fullPath, htoken, if_true]
  refine ⟨?_, ?_, ?_, ?_, rfl, rfl, rfl, rfl⟩ <;> rw [hq] <;>
    cases session.client.NewRequest method (session.fullPath url params) data <;> rfl

/-- Witness for C1: the unauthenticated session listing its calendars fails
with `ErrNoAccessToken` and nothing is sent. -/
theorem query_empty_token_fails_without_network_witness :
    (unauthenticatedSession.query okTransport (str "GET") (str "/calendars") none none .nil).sent
      = [] ∧
    (unauthenticatedSession.query okTransport (str "GET") (str "/calendars") none none .nil).err
      = some .ErrNoAccessToken :=
  have h := query_empty_token_fails_without_network okTransport unauthenticatedSession
    (str "GET") (str "/calendars") none none .nil rfl
  ⟨h.1, by rw [h.2.2.2.1]; decide⟩

/-! ### C2: `parsePageLink` on a malformed link -/

/-- C2, at the failing input: the link `:` cannot be parsed (`url.Parse`
reports a missing protocol scheme and returns the nil pointer), and
`parsePageLink` panics on it instead of returning the empty string. -/
theorem parsePageLink_panics_on_malformed_link :
    url.Parse (str ":") = .error (.urlError "missing protocol scheme") ∧
    parsePageLink (str ":") (str "$skip")
      = .panicked "runtime error: invalid memory address or nil pointer dereference" ∧
    parsePageLink (str ":") (str "$skip") ≠ .returned [] := by
  decide

/-! ### C3, C4: classification of a response -/

/-- C3, as stated, fails: a `500` response whose body cannot be read yields the
read error, which is not an `ErrStatusCode`. -/
theorem checkResponse_unreadable_body_not_classified :
    ¬ isSuccess 500 ∧
    checkResponse { StatusCode := 500, Body := { data := [], err := some ⟨str "unexpected EOF"⟩ } }
      = some (.io ⟨str "unexpected EOF"⟩) ∧
    ¬ ∃ e, checkResponse
      { StatusCode := 500, Body := { data := [], err := some ⟨str "unexpected EOF"⟩ } }
        = some (.statusCode e) := by
  refine ⟨by decide, by decide, ?_⟩
  rintro ⟨e, he⟩
  have h : checkResponse
      { StatusCode := 500, Body := { data := [], err := some ⟨str "unexpected EOF"⟩ } }
        = some (.io ⟨str "unexpected EOF"⟩) := by decide
  rw [h] at he
  cases he

/-- C3, amended: `checkResponse` returns nil exactly for the status codes in
`[200,300)`; it returns an `ErrStatusCode` exactly when the status code is
outside that range and the body is read to its end without error; and for a
status code outside the range with a failing body it returns the read error. -/
theorem checkResponse_classifies (res : Response) :
    (checkResponse res = none ↔ isSuccess res.StatusCode) ∧
    ((∃ e, checkResponse res = some (.statusCode e)) ↔
      (¬ isSuccess res.StatusCode ∧ res.Body.err = none)) ∧
    ((∃ err, checkResponse res = some (.io err)) ↔
      (¬ isSuccess res.StatusCode ∧ res.Body.err ≠ none)) := by
  unfold checkResponse isSuccess ReadAll
  by_cases hs : res.StatusCode ≥ 200 ∧ res.StatusCode < 300
  · simp [hs]
  · cases hb : res.Body.err with
    | none => simp [hs, hb]
    | some err => simp [hs, hb]

/-- C4, as stated, fails: a `404` response with the body text `Not Found`
whose stream ends in a read error yields that error, not an `ErrStatusCode`
with the body as its message. -/
theorem checkResponse_unreadable_body_no_message :
    checkResponse
      { StatusCode := 404,
        Body := { data := str "Not Found", err := some ⟨str "connection reset"⟩ } }
      = some (.io ⟨str "connection reset"⟩) ∧
    ∀ d, checkResponse
      { StatusCode := 404,
        Body := { data := str "Not Found", err := some ⟨str "connection reset"⟩ } }
      ≠ some (.statusCode ⟨404, str "Not Found", d⟩) := by
  refine ⟨by decide, fun d h => ?_⟩
  have h2 : checkResponse
      { StatusCode := 404,
        Body := { data := str "Not Found", err := some ⟨str "connection reset"⟩ } }
      = some (.io ⟨str "connection reset"⟩) := by decide
  rw [h2] at h
  cases h

/-- C4, amended: for a status code outside `[200,300)` and a body that is
read to its end without error, `checkResponse` returns an `ErrStatusCode`
whose `Code` is the status code and whose `Message` is the body text (empty
for an empty body). -/
theorem checkResponse_code_and_message (res : Response)
    (hstatus : ¬ isSuccess res.StatusCode) (hbody : res.Body.err = none) :
    ∃ e, checkResponse res = some (.statusCode e) ∧
      e.Code = res.StatusCode ∧ e.Message = res.Body.data := by
  unfold checkResponse ReadAll
  unfold isSuccess at hstatus
  have hs : ¬ (res.StatusCode ≥ 200 ∧ res.StatusCode < 300) := hstatus
  simp only [hs, hbody, if_false]
  refine ⟨_, rfl, ?_, ?_⟩
  · split_ifs <;> rfl
  · cases hd : res.Body.data with
    | nil => split_ifs <;> simp_all
    | cons c cs => split_ifs <;> simp_all

/-- Witness for C4: a readable `404` response with body `Not Found`. -/
theorem checkResponse_code_and_message_witness :
    ∃ e, checkResponse { StatusCode := 404, Body := { data := str "Not Found" } }
        = some (.statusCode e) ∧
      e.Code = 404 ∧ e.Message = str "Not Found" :=
  checkResponse_code_and_message { StatusCode := 404, Body := { data := str "Not Found" } }
    (by decide) rfl

/-! ### C10: a form-encoded body -/

/-- The payload handed to `http.NewRequest` is stored in the request and has
no other influence on it. -/
theorem http_NewRequest_body (method urlStr body : GoString) :
    http.NewRequest method urlStr body
      = (http.NewRequest method urlStr []).map (fun req => { req with Body := body }) := by
  unfold http.NewRequest
  generalize (if method = [] then str "GET" else method) = m
  by_cases hv : http.validMethod m
  · simp only [hv, Bool.not_true, Bool.false_eq_true, if_false]
    cases url.Parse urlStr <;> rfl
  · simp only [hv, Bool.not_false, if_true]
    rfl

/-- C10: for a client whose media type is `application/x-www-form-urlencoded`,
`Client.NewRequest` returns an error and no request for every non-nil body
that is not a `url.Values`, so an authenticated call with such a body sends
nothing to the network; and for a body that is a `url.Values` it behaves as it
does for the nil body except that the payload of the request it builds is the
form encoding of the values. -/
theorem NewRequest_form_body (client : Client) (method path : GoString)
    (hmedia : client.mediaType = str "application/x-www-form-urlencoded") :
    (∀ b : Payload, b.asValues = none →
      ∃ err, client.NewRequest method path (some b) = .error err) ∧
    (∀ (rt : Transport) (session : Session) (url : GoString) (b : Payload) (result : Target),
      session.client = client → b.asValues = none →
        (session.query rt method url none (some b) result).sent = [] ∧
        (session.query rt method url none (some b) result).err ≠ none) ∧
    (∀ (b : Payload) (v : Values), b.asValues = some v →
      client.NewRequest method path (some b)
        = (client.NewRequest method path none).map (fun req => { req with Body := v.Encode }) ∧
      ∀ req, client.NewRequest method path (some b) = .ok req → req.Body = v.Encode) := by
  have hne : str "application/x-www-form-urlencoded" ≠ str "application/json" := by decide
  have hbad : ∀ (p : GoString) (b : Payload), b.asValues = none →
      ∃ err, client.NewRequest method p (some b) = .error err := by
    intro p b hb
    unfold Client.NewRequest Client.encodeBody
    cases url.Parse p with
    | error err => exact ⟨err, rfl⟩
    | ok pathURL => exact ⟨.bodyNotValues, by simp [hmedia, hne, hb]⟩
  have hgood : ∀ (b : Payload) (v : Values), b.asValues = some v →
      client.NewRequest method path (some b)
        = (client.NewRequest method path none).map
            (fun req => { req with Body := v.Encode }) := by
    intro b v hb
    unfold Client.NewRequest Client.encodeBody
    cases url.Parse path with
    | error err => rfl
    | ok pathURL =>
      simp only [hmedia, hne, hb, if_false, if_true]
      rw [http_NewRequest_body]
      cases http.NewRequest method
        (if pathURL.Hostname ≠ [] then path else client.baseURL ++ path) [] <;> rfl
  refine ⟨hbad path, ?_, ?_⟩
  · intro rt session url b result hc hb
    obtain ⟨err, herr⟩ := hbad (session.fullPath url none) b hb
    have hq : session.query rt method url none (some b) result
        = { response := none, err := some err } := by
      simp only [Session.query, Session.fullPath, hc] at herr ⊢
      simp only [herr]
    rw [hq]
    exact ⟨rfl, by simp⟩
  · intro b v hb
    refine ⟨hgood b v hb, ?_⟩
    intro req hreq
    rw [hgood b v hb] at hreq
    cases hnil : client.NewRequest method path none with
    | error err => rw [hnil] at hreq; cases hreq
    | ok req0 =>
      rw [hnil] at hreq
      simp only [Except.map] at hreq
      cases hreq
      rfl

/-- Witness for C10: on the form-encoded client a JSON-only body is refused,
and the refresh form is sent as its form encoding. -/
theorem NewRequest_form_body_witness :
    (∃ err, formClient.NewRequest (str "POST") DefaultOAuthTokenURL
      (some ⟨none, .ok (str "{}")⟩) = .error err) ∧
    (formClient.NewRequest (str "POST") DefaultOAuthTokenURL
      (some ⟨some [(str "grant_type", [str "refresh_token"])], .ok []⟩)).map (fun r => r.Body)
      = .ok (str "grant_type=refresh_token") :=
  have h := NewRequest_form_body formClient (str "POST") DefaultOAuthTokenURL (by decide)
  ⟨h.1 ⟨none, .ok (str "{}")⟩ rfl, by
    rw [(h.2.2 ⟨some [(str "grant_type", [str "refresh_token"])], .ok []⟩ _ rfl).1]
    decide⟩

/-! ### C5, C6: the suggested retry duration -/

/-- Reading more digits never makes the number smaller. -/
theorem le_digitsFrom (ds : GoString) (acc : Nat) : acc ≤ digitsFrom acc ds := by
  induction ds generalizing acc with
  | nil => exact Nat.le_refl _
  | cons c cs ih =>
    have h := ih (acc * 10 + (c - ch '0').val)
    simp only [digitsFrom, List.foldl_cons] at h ⊢
    omega

/-- The loop of `ParseUint` on a text whose leading digits fit in 64 bits:
the number when all bytes are digits, a syntax error otherwise. -/
theorem parseUintLoop_of_fit (s : GoString) (acc : Nat)
    (hfit : digitsFrom acc (s.takeWhile isDigit) < 2 ^ 64) :
    strconv.parseUintLoop s acc
      = if s.all isDigit = true then (digitsFrom acc s, none) else (0, some .ErrSyntax) := by
  induction s generalizing acc with
  | nil => simp [strconv.parseUintLoop, digitsFrom]
  | cons c cs ih =>
    by_cases hc : ch '0' ≤ c ∧ c ≤ ch '9'
    · have hd : isDigit c = true := by simp [isDigit, hc.1, hc.2]
      simp only [List.takeWhile_cons, hd, if_true] at hfit
      have hfit2 : digitsFrom (acc * 10 + (c - ch '0').val) (cs.takeWhile isDigit) < 2 ^ 64 := by
        simpa [digitsFrom] using hfit
      have hle := le_digitsFrom (cs.takeWhile isDigit) (acc * 10 + (c - ch '0').val)
      have hlt : acc * 10 + (c - ch '0').val < 2 ^ 64 := lt_of_le_of_lt hle hfit2
      have h10 : acc * 10 % 2 ^ 64 = acc * 10 := Nat.mod_eq_of_lt (by omega)
      have h1 : (acc * 10 + (c - ch '0').val) % 2 ^ 64 = acc * 10 + (c - ch '0').val :=
        Nat.mod_eq_of_lt hlt
      have hcut : ¬ acc ≥ strconv.maxUint64 / 10 + 1 := by
        simp only [strconv.maxUint64]
        omega
      have hover : ¬ (acc * 10 + (c - ch '0').val < acc * 10 ∨
          acc * 10 + (c - ch '0').val > strconv.maxUint64) := by
        simp only [strconv.maxUint64]
        omega
      rw [strconv.parseUintLoop]
      simp only [hc, and_self, if_true, hcut, if_false, h10, h1, hover]
      rw [ih _ hfit2]
      simp [hd, digitsFrom]
    · have hd : isDigit c = false := by
        simp only [isDigit, Bool.and_eq_false_iff, decide_eq_false_iff_not]
        by_cases h0 : ch '0' ≤ c
        · exact Or.inr (fun h9 => hc ⟨h0, h9⟩)
        · exact Or.inl h0
      rw [strconv.parseUintLoop]
      simp [hc, hd]

/-- The function `strconv.ParseInt` returns the integer of a decimal text that
fits in 64 bits, without error. -/
theorem ParseInt_decimal (s : GoString) (n : Int) (hdec : decimalValue s = some n)
    (hrange : -(2 ^ 63) ≤ n ∧ n < 2 ^ 63) : strconv.ParseInt s = (n, none) := by
  unfold decimalValue at hdec
  by_cases hds : unsignedPart s ≠ [] ∧ (unsignedPart s).all isDigit = true
  · rw [if_pos hds] at hdec
    obtain ⟨hne, hall⟩ := hds
    have hn := Option.some.inj hdec
    have htake : (unsignedPart s).takeWhile isDigit = unsignedPart s :=
      List.takeWhile_eq_self_iff.mpr (fun c hc => List.all_eq_true.mp hall c hc)
    have hmag : digitsFrom 0 (unsignedPart s) < 2 ^ 64 := by
      split_ifs at hn <;> omega
    have hloop := parseUintLoop_of_fit (unsignedPart s) 0 (by rw [htake]; exact hmag)
    rw [hall] at hloop
    simp only [if_true] at hloop
    cases s with
    | nil => simp [unsignedPart] at hne
    | cons c cs =>
      have hu : (if c = ch '+' ∨ c = ch '-' then cs else c :: cs) = unsignedPart (c :: cs) := rfl
      simp only [strconv.ParseInt, strconv.ParseUint, hu, hne, if_false, hloop]
      simp only [List.head?_cons, Option.some.injEq] at hn
      by_cases hneg : c = ch '-'
      · simp only [hneg, if_true] at hn ⊢
        have h1 : ¬ digitsFrom 0 (unsignedPart (ch '-' :: cs)) > 2 ^ 63 := by omega
        have h2 : digitsFrom 0 (unsignedPart (ch '-' :: cs)) ≤ 9223372036854775808 := by omega
        simp [h1, h2, hn]
      · simp only [hneg, if_false] at hn ⊢
        have h1 : ¬ digitsFrom 0 (unsignedPart (c :: cs)) ≥ 2 ^ 63 := by omega
        have h2 : digitsFrom 0 (unsignedPart (c :: cs)) < 9223372036854775808 := by omega
        simp [h1, h2, hn]
  · rw [if_neg hds] at hdec
    cases hdec

/-- The function `strconv.ParseInt` reports a syntax error, with the value 0,
for a text that is not a decimal integer and whose leading digits fit in 64
bits. -/
theorem ParseInt_not_decimal (s : GoString) (hdec : decimalValue s = none)
    (hfit : leadingNumber s < 2 ^ 64) : strconv.ParseInt s = (0, some .ErrSyntax) := by
  cases s with
  | nil => rfl
  | cons c cs =>
    have hu : (if c = ch '+' ∨ c = ch '-' then cs else c :: cs) = unsignedPart (c :: cs) := rfl
    simp only [strconv.ParseInt, strconv.ParseUint, hu]
    by_cases hne : unsignedPart (c :: cs) = []
    · simp [hne]
    · have hall : ¬ (unsignedPart (c :: cs)).all isDigit = true := by
        intro hall
        simp [decimalValue, hne, hall] at hdec
      have hloop := parseUintLoop_of_fit (unsignedPart (c :: cs)) 0 hfit
      simp only [hall, if_false] at hloop
      simp [hne, hloop]

/-- A key that the map does not hold has no values. -/
theorem Values.index_of_absent (v : Values) (key : GoString)
    (h : key ∉ v.map Prod.fst) : v.index key = [] := by
  induction v with
  | nil => rfl
  | cons kv rest ih =>
    obtain ⟨k, vs⟩ := kv
    simp only [List.map_cons, List.mem_cons, not_or] at h
    have hk : ¬ k = key := fun e => h.1 e.symm
    simp only [Values.index, hk, if_false]
    exact ih h.2

/-- The value that `checkResponse` returns for a readable response outside
`[200,300)`, in terms of the duration it computes. -/
theorem checkResponse_of_readable (res : Response)
    (hstatus : ¬ isSuccess res.StatusCode) (hbody : res.Body.err = none) :
    checkResponse res = some (.statusCode
      { Code := res.StatusCode, Message := res.Body.data,
        SuggestedRetryDuration :=
          if res.StatusCode = 429 ∧ res.Header.Get (str "Retry-After") ≠ [] then
            wrapInt64 ((strconv.ParseInt (res.Header.Get (str "Retry-After"))).1 * Second)
          else 0 }) := by
  have hs : ¬ (res.StatusCode ≥ 200 ∧ res.StatusCode < 300) := hstatus
  have hmsg : (if res.Body.data.length > 0 then res.Body.data else []) = res.Body.data := by
    cases res.Body.data <;> simp
  unfold checkResponse ReadAll
  simp only [hs, hbody, if_false]
  by_cases h429 : res.StatusCode = 429
  · by_cases hraw : res.Header.Get (str "Retry-After") = []
    · simp [h429, hraw, apply_ite, hmsg]
    · simp [h429, hraw, apply_ite, hmsg]
  · simp [h429, apply_ite, hmsg]

/-- C5, as stated, fails: for a `429` response with the header
`Retry-After: 9223372037`, the decimal text of 9223372037, the suggested
duration is not 9223372037 seconds (which no `time.Duration` can hold) but the
negative duration that the 64-bit product wraps to. -/
theorem checkResponse_retry_seconds_overflow :
    decimalValue (str "9223372037") = some 9223372037 ∧
    checkResponse
      { StatusCode := 429, Header := [(str "Retry-After", [str "9223372037"])] }
      = some (.statusCode ⟨429, [], -9223372036709551616⟩) ∧
    (-9223372036709551616 : Int) ≠ 9223372037 * Second := by
  decide

/-- C5, amended: for a `429` response whose body is read without error and
whose `Retry-After` header is the decimal text of an integer `n` of at most
9223372036 in absolute value (the seconds that a `time.Duration` can hold),
the `ErrStatusCode` returned by `checkResponse` has `SuggestedRetryDuration`
equal to `n` seconds. -/
theorem checkResponse_retry_seconds (res : Response) (n : Int)
    (hstatus : res.StatusCode = 429) (hbody : res.Body.err = none)
    (hheader : decimalValue (res.Header.Get (str "Retry-After")) = some n)
    (hrange : -9223372036 ≤ n ∧ n ≤ 9223372036) :
    checkResponse res = some (.statusCode
      { Code := 429, Message := res.Body.data, SuggestedRetryDuration := n * Second }) := by
  have hns : ¬ isSuccess res.StatusCode := by
    rw [hstatus]
    decide
  have hraw : res.Header.Get (str "Retry-After") ≠ [] := by
    intro h
    rw [h] at hheader
    have hnone : decimalValue [] = none := by decide
    rw [hnone] at hheader
    cases hheader
  have hparse := ParseInt_decimal _ n hheader (by omega)
  rw [checkResponse_of_readable res hns hbody, hparse]
  simp only [hstatus, hraw, ne_eq, not_false_eq_true, and_self, if_true]
  have hw : wrapInt64 (n * Second) = n * Second := by
    unfold wrapInt64 Second
    omega
  rw [hw]

/-- Witness for C5: the header `Retry-After: 30` gives 30 seconds. -/
theorem checkResponse_retry_seconds_witness :
    checkResponse
      { StatusCode := 429, Header := [(str "Retry-After", [str "30"])],
        Body := { data := str "slow down" } }
      = some (.statusCode ⟨429, str "slow down", 30 * Second⟩) :=
  checkResponse_retry_seconds
    { StatusCode := 429, Header := [(str "Retry-After", [str "30"])],
      Body := { data := str "slow down" } }
    30 rfl rfl (by decide) (by decide)

/-- C6, as stated, fails: a `429` response with the non-numeric header
`Retry-After: soon` whose body cannot be read is not classified at all;
`checkResponse` returns the read error. -/
theorem checkResponse_unreadable_body_no_retry :
    decimalValue (str "soon") = none ∧
    checkResponse
      { StatusCode := 429, Header := [(str "Retry-After", [str "soon"])],
        Body := { data := [], err := some ⟨str "timeout"⟩ } }
      = some (.io ⟨str "timeout"⟩) ∧
    ∀ e, checkResponse
      { StatusCode := 429, Header := [(str "Retry-After", [str "soon"])],
        Body := { data := [], err := some ⟨str "timeout"⟩ } }
      ≠ some (.statusCode e) := by
  refine ⟨by decide, by decide, fun e h => ?_⟩
  have h2 : checkResponse
      { StatusCode := 429, Header := [(str "Retry-After", [str "soon"])],
        Body := { data := [], err := some ⟨str "timeout"⟩ } }
      = some (.io ⟨str "timeout"⟩) := by decide
  rw [h2] at h
  cases h

/-- C6, amended: for a response outside `[200,300)` whose body is read without
error, `checkResponse` returns an `ErrStatusCode`, and its
`SuggestedRetryDuration` is zero whenever the status code is not 429, or the
`Retry-After` header is absent or empty, or the header is not a decimal
integer and its leading digits fit in 64 bits (so that `strconv.ParseInt`
reports a syntax error for it). -/
theorem checkResponse_zero_retry (res : Response)
    (hstatus : ¬ isSuccess res.StatusCode) (hbody : res.Body.err = none)
    (hcase : res.StatusCode ≠ 429 ∨
      str "Retry-After" ∉ res.Header.map Prod.fst ∨
      res.Header.Get (str "Retry-After") = [] ∨
      (decimalValue (res.Header.Get (str "Retry-After")) = none ∧
        leadingNumber (res.Header.Get (str "Retry-After")) < 2 ^ 64)) :
    checkResponse res = some (.statusCode
      { Code := res.StatusCode, Message := res.Body.data, SuggestedRetryDuration := 0 }) := by
  rw [checkResponse_of_readable res hstatus hbody]
  rcases hcase with h | h | h | ⟨hdec, hfit⟩
  · simp [h]
  · have hget : res.Header.Get (str "Retry-After") = [] := by
      simp [Values.Get, Values.index_of_absent _ _ h]
    simp [hget]
  · simp [h]
  · rw [ParseInt_not_decimal _ hdec hfit]
    simp [wrapInt64]

/-- Witness for C6: a readable `429` response with the header
`Retry-After: soon`. -/
theorem checkResponse_zero_retry_witness :
    checkResponse
      { StatusCode := 429, Header := [(str "Retry-After", [str "soon"])],
        Body := { data := str "slow down" } }
      = some (.statusCode ⟨429, str "slow down", 0⟩) :=
  checkResponse_zero_retry
    { StatusCode := 429, Header := [(str "Retry-After", [str "soon"])],
      Body := { data := str "slow down" } }
    (by decide) rfl (Or.inr (Or.inr (Or.inr ⟨by decide, by decide⟩)))

/-- The case that the amended C6 leaves out: a non-numeric header that begins
with digits overflowing 64 bits makes `strconv.ParseInt` report a range error
with the largest `int64`, and the duration is minus one second, not zero. -/
theorem checkResponse_overflowing_prefix_not_zero :
    decimalValue (str "99999999999999999999x") = none ∧
    checkResponse
      { StatusCode := 429, Header := [(str "Retry-After", [str "99999999999999999999x"])] }
      = some (.statusCode ⟨429, [], -1000000000⟩) := by
  decide

/-! ### Maps as association lists -/

/-- Reading a map after a store. -/
theorem Values.index_store (v : Values) (k k2 : GoString) (vs : List GoString) :
    (v.store k vs).index k2 = if k = k2 then vs else v.index k2 := by
  induction v with
  | nil => simp [Values.store, Values.index]
  | cons kv rest ih =>
    obtain ⟨a, old⟩ := kv
    by_cases hak : a = k
    · subst hak
      simp only [Values.store, if_true, Values.index]
      by_cases h2 : a = k2 <;> simp [h2]
    · simp only [Values.store, hak, if_false, Values.index, ih]
      by_cases h2 : a = k2
      · have hk : ¬ k = k2 := fun e => hak (h2.trans e.symm)
        simp [h2, hk]
      · simp [h2]

/-- The keys of a map after a store. -/
theorem Values.keys_store (v : Values) (k : GoString) (vs : List GoString) :
    (v.store k vs).map Prod.fst
      = if k ∈ v.map Prod.fst then v.map Prod.fst else v.map Prod.fst ++ [k] := by
  induction v with
  | nil => simp [Values.store]
  | cons kv rest ih =>
    obtain ⟨a, old⟩ := kv
    by_cases hak : a = k
    · subst hak
      simp [Values.store]
    · have hka : ¬ k = a := fun e => hak e.symm
      simp only [Values.store, hak, if_false, List.map_cons, ih, List.mem_cons, hka, false_or]
      by_cases hmem : k ∈ rest.map Prod.fst <;> simp [hmem]

/-- A store keeps the keys distinct. -/
theorem Values.nodup_keys_store (v : Values) (k : GoString) (vs : List GoString)
    (h : (v.map Prod.fst).Nodup) : ((v.store k vs).map Prod.fst).Nodup := by
  rw [Values.keys_store]
  by_cases hmem : k ∈ v.map Prod.fst
  · simpa [hmem] using h
  · simp only [hmem, if_false]
    exact List.Nodup.append h (List.nodup_singleton k) (by simpa using hmem)

/-- Storing one value keeps a map single-valued. -/
theorem Values.single_Set (v : Values) (k x : GoString) (h : v.single) :
    (v.Set k x).single := by
  refine ⟨Values.nodup_keys_store v k [x] h.1, ?_⟩
  intro k2 hk2
  rw [Values.Set, Values.index_store]
  by_cases hk : k = k2
  · exact ⟨x, by simp [hk]⟩
  · simp only [hk, if_false]
    apply h.2
    rw [Values.Set, Values.keys_store] at hk2
    by_cases hmem : k ∈ v.map Prod.fst
    · simpa [hmem] using hk2
    · simp only [hmem, if_false, List.mem_append, List.mem_singleton] at hk2
      rcases hk2 with h1 | h1
      · exact h1
      · exact absurd h1.symm hk

/-- The map that `createQueryString` builds is single-valued, whatever it
starts from. -/
theorem single_foldl_Set (l : List (GoString × GoValue)) (acc : Values) (h : acc.single) :
    (l.foldl (fun query kv => query.Set kv.1 (sprintV kv.2)) acc).single := by
  induction l generalizing acc with
  | nil => exact h
  | cons e es ih => exact ih _ (Values.single_Set acc e.1 (sprintV e.2) h)

/-- A key that is not set keeps its values. -/
theorem index_foldl_Set_of_absent (l : List (GoString × GoValue)) (acc : Values)
    (k : GoString) (h : k ∉ l.map Prod.fst) :
    (l.foldl (fun query kv => query.Set kv.1 (sprintV kv.2)) acc).index k = acc.index k := by
  induction l generalizing acc with
  | nil => rfl
  | cons e es ih =>
    simp only [List.map_cons, List.mem_cons, not_or] at h
    rw [List.foldl_cons, ih _ h.2, Values.Set, Values.index_store]
    have hk : ¬ e.1 = k := fun e1 => h.1 e1.symm
    simp [hk]

/-- A key that is set once holds the text of its value. -/
theorem index_foldl_Set_of_mem (l : List (GoString × GoValue)) (acc : Values)
    (k : GoString) (v : GoValue) (hnodup : (l.map Prod.fst).Nodup) (h : (k, v) ∈ l) :
    (l.foldl (fun query kv => query.Set kv.1 (sprintV kv.2)) acc).index k = [sprintV v] := by
  induction l generalizing acc with
  | nil => cases h
  | cons e es ih =>
    simp only [List.map_cons, List.nodup_cons] at hnodup
    rw [List.foldl_cons]
    rcases List.mem_cons.mp h with h1 | h1
    · subst h1
      rw [index_foldl_Set_of_absent es _ k hnodup.1, Values.Set, Values.index_store]
      simp
    · exact ih _ hnodup.2 h1

/-- The keys of the map that `createQueryString` builds are the keys set. -/
theorem mem_keys_foldl_Set (l : List (GoString × GoValue)) (acc : Values) (k : GoString) :
    k ∈ (l.foldl (fun query kv => query.Set kv.1 (sprintV kv.2)) acc).map Prod.fst
      ↔ k ∈ acc.map Prod.fst ∨ k ∈ l.map Prod.fst := by
  induction l generalizing acc with
  | nil => simp
  | cons e es ih =>
    rw [List.foldl_cons, ih, Values.Set, Values.keys_store]
    by_cases hmem : e.1 ∈ acc.map Prod.fst
    · simp only [hmem, if_true, List.map_cons, List.mem_cons]
      constructor
      · rintro (h | h)
        · exact Or.inl h
        · exact Or.inr (Or.inr h)
      · rintro (h | h | h)
        · exact Or.inl h
        · exact Or.inl (h ▸ hmem)
        · exact Or.inr h
    · simp only [hmem, if_false, List.mem_append, List.mem_singleton, List.map_cons,
        List.mem_cons]
      tauto

/-- The values of a key after a run of `Values.Add`. -/
theorem index_foldl_Add (l : List (GoString × GoString)) (acc : Values) (k : GoString) :
    (l.foldl (fun m kv => m.Add kv.1 kv.2) acc).index k
      = acc.index k ++ (l.filter (fun kv => kv.1 = k)).map Prod.snd := by
  induction l generalizing acc with
  | nil => simp
  | cons e es ih =>
    rw [List.foldl_cons, ih, Values.Add, Values.index_store]
    by_cases hk : e.1 = k
    · simp [hk, List.filter_cons]
    · simp [hk, List.filter_cons]

/-! ### Query escaping and its inverse -/

/-- The two hex digits written for a byte are hex digits and read back as
the byte. -/
theorem unhex_upperhex (c : Byte) :
    url.ishex (url.upperhex (c >>> 4)) = true ∧ url.ishex (url.upperhex (c &&& 15)) = true ∧
    url.unhex (url.upperhex (c >>> 4)) <<< 4 ||| url.unhex (url.upperhex (c &&& 15)) = c := by
  revert c
  decide

/-- A byte that the query encoding leaves as it is, is neither `%` nor `+`. -/
theorem not_special_of_not_shouldEscape (c : Byte)
    (h : url.shouldEscape c .encodeQueryComponent = false) : c ≠ ch '%' ∧ c ≠ ch '+' := by
  revert c
  decide

/-- The query encoding of a byte contains none of `&`, `=` and `;`. -/
theorem escapeByte_no_separator (c : Byte) :
    ch '&' ∉ url.escapeByte .encodeQueryComponent c ∧
    ch '=' ∉ url.escapeByte .encodeQueryComponent c ∧
    ch ';' ∉ url.escapeByte .encodeQueryComponent c := by
  revert c
  decide

/-- Decoding a byte that is neither `%` nor `+`. -/
theorem unescape_cons_plain (c : Byte) (rest : GoString) (hp : c ≠ ch '%') (hq : c ≠ ch '+') :
    url.unescape .encodeQueryComponent (c :: rest)
      = (url.unescape .encodeQueryComponent rest).map (fun t => c :: t) := by
  rcases rest with _ | ⟨a, _ | ⟨b, rest2⟩⟩ <;> simp [url.unescape, hp, hq]

/-- Decoding a `+`. -/
theorem unescape_cons_plus (rest : GoString) :
    url.unescape .encodeQueryComponent (ch '+' :: rest)
      = (url.unescape .encodeQueryComponent rest).map (fun t => ch ' ' :: t) := by
  have h1 : ¬ ch '+' = ch '%' := by decide
  rcases rest with _ | ⟨a, _ | ⟨b, rest2⟩⟩ <;> simp [url.unescape, h1]

/-- Decoding a well-formed escape. -/
theorem unescape_cons_percent (a b : Byte) (rest : GoString)
    (ha : url.ishex a = true) (hb : url.ishex b = true) :
    url.unescape .encodeQueryComponent (ch '%' :: a :: b :: rest)
      = (url.unescape .encodeQueryComponent rest).map
          (fun t => (url.unhex a <<< 4 ||| url.unhex b) :: t) := by
  simp [url.unescape, ha, hb]

/-- Decoding undoes the encoding of one byte. -/
theorem unescape_escapeByte (c : Byte) (rest : GoString) :
    url.unescape .encodeQueryComponent (url.escapeByte .encodeQueryComponent c ++ rest)
      = (url.unescape .encodeQueryComponent rest).map (fun t => c :: t) := by
  unfold url.escapeByte
  by_cases hesc : url.shouldEscape c .encodeQueryComponent = true
  · by_cases hsp : c = ch ' '
    · subst hsp
      simp only [hesc, if_true, and_self, List.singleton_append]
      exact unescape_cons_plus rest
    · obtain ⟨hhi, hlo, hval⟩ := unhex_upperhex c
      simp only [hesc, if_true, hsp, false_and, if_false, List.cons_append, List.nil_append]
      rw [unescape_cons_percent _ _ _ hhi hlo, hval]
  · have hesc2 : url.shouldEscape c .encodeQueryComponent = false := by simpa using hesc
    obtain ⟨hp, hq⟩ := not_special_of_not_shouldEscape c hesc2
    simp only [hesc2, Bool.false_eq_true, if_false, List.singleton_append]
    exact unescape_cons_plain c rest hp hq

/-- Decoding undoes `url.QueryEscape`. -/
theorem QueryUnescape_QueryEscape (s : GoString) :
    url.QueryUnescape (url.QueryEscape s) = .ok s := by
  unfold url.QueryUnescape url.QueryEscape url.escape
  induction s with
  | nil => rfl
  | cons c cs ih =>
    rw [List.flatMap_cons, unescape_escapeByte, ih]
    rfl

/-- The text that `url.QueryEscape` returns contains none of `&`, `=`, `;`. -/
theorem QueryEscape_no_separator (s : GoString) :
    ch '&' ∉ url.QueryEscape s ∧ ch '=' ∉ url.QueryEscape s ∧ ch ';' ∉ url.QueryEscape s := by
  unfold url.QueryEscape url.escape
  refine ⟨?_, ?_, ?_⟩ <;>
  · intro h
    obtain ⟨c, _, hc⟩ := List.mem_flatMap.mp h
    have := escapeByte_no_separator c
    tauto

/-! ### Cutting and splitting -/

/-- Cutting at the first separator. -/
theorem cut_append (sep : Byte) (a b : GoString) (h : sep ∉ a) :
    cut sep (a ++ sep :: b) = (a, b, true) := by
  induction a with
  | nil => simp [cut]
  | cons c cs ih =>
    simp only [List.mem_cons, not_or] at h
    have hc : ¬ c = sep := fun e => h.1 e.symm
    simp [cut, hc, ih h.2]

/-- Splitting a text without separator. -/
theorem splitOn_of_not_mem (sep : Byte) (a : GoString) (h : sep ∉ a) :
    splitOn sep a = [a] := by
  induction a with
  | nil => rfl
  | cons c cs ih =>
    simp only [List.mem_cons, not_or] at h
    have hc : ¬ c = sep := fun e => h.1 e.symm
    simp [splitOn, hc, ih h.2]

/-- Splitting at the first separator. -/
theorem splitOn_append (sep : Byte) (a b : GoString) (h : sep ∉ a) :
    splitOn sep (a ++ sep :: b) = a :: splitOn sep b := by
  induction a with
  | nil => simp [splitOn]
  | cons c cs ih =>
    simp only [List.mem_cons, not_or] at h
    have hc : ¬ c = sep := fun e => h.1 e.symm
    simp [splitOn, hc, ih h.2]

/-- Splitting undoes joining, for pieces without `&`. -/
theorem splitOn_joinAmp (pieces : List GoString) (hne : pieces ≠ [])
    (h : ∀ p ∈ pieces, ch '&' ∉ p) : splitOn (ch '&') (joinAmp pieces) = pieces := by
  induction pieces with
  | nil => exact absurd rfl hne
  | cons p ps ih =>
    cases ps with
    | nil => simpa [joinAmp] using splitOn_of_not_mem _ p (h p (List.mem_cons_self _ _))
    | cons q qs =>
      rw [joinAmp, splitOn_append _ _ _ (h p (List.mem_cons_self _ _)),
        ih (List.cons_ne_nil _ _) (fun x hx => h x (List.mem_cons_of_mem _ hx))]

/-! ### `Values.Encode` and `url.ParseQuery` -/

/-- The buffer of `Values.Encode` after writing non-empty pieces is the
buffer, a `&` if it was not empty, and the pieces joined by `&`. -/
theorem foldl_pieces (ps : List GoString) (buf : GoString) (hps : ∀ p ∈ ps, p ≠ []) :
    ps.foldl (fun buf p => (if buf.length > 0 then buf ++ [ch '&'] else buf) ++ p) buf
      = if ps = [] then buf
        else if buf = [] then joinAmp ps else buf ++ ch '&' :: joinAmp ps := by
  induction ps generalizing buf with
  | nil => simp
  | cons p qs ih =>
    have hp : p ≠ [] := hps p (List.mem_cons_self _ _)
    have hqs : ∀ q ∈ qs, q ≠ [] := fun q hq => hps q (List.mem_cons_of_mem _ hq)
    rw [List.foldl_cons, ih _ hqs]
    cases qs with
    | nil =>
      cases buf with
      | nil => simp [joinAmp]
      | cons b bs => simp [joinAmp]
    | cons q rs =>
      cases buf with
      | nil => simp [joinAmp, hp]
      | cons b bs => simp [joinAmp]

/-- The text of a pair is not empty and has no `&` and no `;`. -/
theorem pairText_shape (k x : GoString) :
    pairText k x ≠ [] ∧ ch '&' ∉ pairText k x ∧ ch ';' ∉ pairText k x := by
  obtain ⟨hk1, _, hk3⟩ := QueryEscape_no_separator k
  obtain ⟨hx1, _, hx3⟩ := QueryEscape_no_separator x
  have h1 : ¬ ch '&' = ch '=' := by decide
  have h2 : ¬ ch ';' = ch '=' := by decide
  unfold pairText
  refine ⟨by simp, ?_, ?_⟩
  · simp only [List.mem_append, List.mem_cons, not_or]
    exact ⟨hk1, h1, hx1⟩
  · simp only [List.mem_append, List.mem_cons, not_or]
    exact ⟨hk3, h2, hx3⟩

/-- For a single-valued map, `Values.Encode` writes the pairs of the sorted
keys, joined by `&`. -/
theorem Encode_eq_joinAmp (v : Values) (h : v.single) :
    v.Encode = joinAmp ((sortStrings (v.map Prod.fst)).map (fun k => pairText k (v.Get k))) := by
  have hperm : (sortStrings (v.map Prod.fst)).Perm (v.map Prod.fst) :=
    List.perm_insertionSort _ _
  have hinner : ∀ (ks : List GoString) (buf : GoString), (∀ k ∈ ks, k ∈ v.map Prod.fst) →
      ks.foldl (fun buf k => (v.index k).foldl (Values.encodePair (url.QueryEscape k)) buf) buf
        = (ks.map (fun k => pairText k (v.Get k))).foldl
            (fun buf p => (if buf.length > 0 then buf ++ [ch '&'] else buf) ++ p) buf := by
    intro ks
    induction ks with
    | nil => intro buf _; rfl
    | cons k ks ih =>
      intro buf hks
      obtain ⟨x, hx⟩ := h.2 k (hks k (List.mem_cons_self _ _))
      have hget : v.Get k = x := by simp [Values.Get, hx]
      rw [List.foldl_cons, List.map_cons, List.foldl_cons,
        ih _ (fun k2 hk2 => hks k2 (List.mem_cons_of_mem _ hk2)), hx, hget]
      simp [Values.encodePair, pairText]
  unfold Values.Encode
  cases hv : v with
  | nil => rfl
  | cons kv rest =>
    rw [← hv]
    have hlen : ¬ v.length = 0 := by simp [hv]
    rw [if_neg hlen, hinner _ _ (fun k hk => hperm.mem_iff.mp hk),
      foldl_pieces _ _ (fun p hp => by
        obtain ⟨k, _, rfl⟩ := List.mem_map.mp hp
        exact (pairText_shape k (v.Get k)).1)]
    have hne : (sortStrings (v.map Prod.fst)).map (fun k => pairText k (v.Get k)) ≠ [] := by
      intro hnil
      have := congrArg List.length hnil
      rw [List.length_map, hperm.length_eq, hv] at this
      simp at this
    simp [hne]

/-- The loop body of `parseQuery` on the text of a pair adds the pair. -/
theorem parseQueryPiece_pairText (m : Values) (k x : GoString) :
    url.parseQueryPiece (m, none) (pairText k x) = (m.Add k x, none) := by
  obtain ⟨hne, _, hsemi⟩ := pairText_shape k x
  have hcut : cut (ch '=') (pairText k x) = (url.QueryEscape k, url.QueryEscape x, true) :=
    cut_append _ _ _ (QueryEscape_no_separator k).2.1
  have hc : containsByte (ch ';') (pairText k x) = false := by
    simpa [containsByte] using hsemi
  unfold url.parseQueryPiece
  simp [hc, hne, hcut, QueryUnescape_QueryEscape]

/-- Parsing the joined pair texts adds the pairs in order. -/
theorem foldl_parseQueryPiece (pairs : List (GoString × GoString)) (m : Values) :
    (pairs.map (fun kv => pairText kv.1 kv.2)).foldl url.parseQueryPiece (m, none)
      = (pairs.foldl (fun m kv => m.Add kv.1 kv.2) m, none) := by
  induction pairs generalizing m with
  | nil => rfl
  | cons kv rest ih =>
    rw [List.map_cons, List.foldl_cons, parseQueryPiece_pairText, ih, List.foldl_cons]

/-- The values found for a key among pairs with distinct keys. -/
theorem filter_key_of_nodup (ks : List GoString) (g : GoString → GoString) (k : GoString)
    (h : ks.Nodup) :
    ((ks.map (fun a => (a, g a))).filter (fun kv => kv.1 = k)).map Prod.snd
      = if k ∈ ks then [g k] else [] := by
  induction ks with
  | nil => rfl
  | cons a rest ih =>
    simp only [List.nodup_cons] at h
    by_cases hak : a = k
    · subst hak
      simp [List.filter_cons, ih h.2, h.1]
    · have hka : ¬ k = a := fun e => hak e.symm
      simp [List.filter_cons, hak, hka, ih h.2]

/-- Round trip: decoding the encoding of a single-valued map succeeds and
gives every key the values it had. -/
theorem ParseQuery_Encode (v : Values) (h : v.single) :
    (url.ParseQuery v.Encode).2 = none ∧
    ∀ k, (url.ParseQuery v.Encode).1.index k = v.index k := by
  have hperm : (sortStrings (v.map Prod.fst)).Perm (v.map Prod.fst) :=
    List.perm_insertionSort _ _
  cases hv : v with
  | nil => exact ⟨rfl, fun k => rfl⟩
  | cons kv rest =>
    rw [← hv]
    have hne : (sortStrings (v.map Prod.fst)).map (fun k => pairText k (v.Get k)) ≠ [] := by
      intro hnil
      have := congrArg List.length hnil
      rw [List.length_map, hperm.length_eq, hv] at this
      simp at this
    have hparse : url.ParseQuery v.Encode
        = (((sortStrings (v.map Prod.fst)).map (fun k => (k, v.Get k))).foldl
            (fun (m : Values) kv => m.Add kv.1 kv.2) [], none) := by
      rw [Encode_eq_joinAmp v h, url.ParseQuery, url.parseQuery,
        splitOn_joinAmp _ hne (fun p hp => by
          obtain ⟨k, _, rfl⟩ := List.mem_map.mp hp
          exact (pairText_shape k (v.Get k)).2.1)]
      rw [← foldl_parseQueryPiece, List.map_map]
      rfl
    rw [hparse]
    refine ⟨rfl, fun k => ?_⟩
    rw [index_foldl_Add, filter_key_of_nodup _ _ _ (hperm.nodup_iff.mpr h.1)]
    by_cases hk : k ∈ v.map Prod.fst
    · obtain ⟨x, hx⟩ := h.2 k hk
      simp [hperm.mem_iff.mpr hk, Values.Get, hx, Values.index]
    · have hk2 : k ∉ sortStrings (v.map Prod.fst) := fun hmem => hk (hperm.mem_iff.mp hmem)
      simp [hk2, Values.index_of_absent v k hk, Values.index]

/-- The keys of a map after a run of `Values.Add`. -/
theorem mem_keys_foldl_Add (l : List (GoString × GoString)) (acc : Values) (k : GoString) :
    k ∈ (l.foldl (fun (m : Values) kv => m.Add kv.1 kv.2) acc).map Prod.fst
      ↔ k ∈ acc.map Prod.fst ∨ k ∈ l.map Prod.fst := by
  induction l generalizing acc with
  | nil => simp
  | cons e es ih =>
    rw [List.foldl_cons, ih, Values.Add, Values.keys_store]
    by_cases hmem : e.1 ∈ acc.map Prod.fst
    · simp only [hmem, if_true, List.map_cons, List.mem_cons]
      constructor
      · rintro (h | h)
        · exact Or.inl h
        · exact Or.inr (Or.inr h)
      · rintro (h | h | h)
        · exact Or.inl h
        · exact Or.inl (h ▸ hmem)
        · exact Or.inr h
    · simp only [hmem, if_false, List.mem_append, List.mem_singleton, List.map_cons,
        List.mem_cons]
      tauto

/-- Round trip, keys: decoding the encoding of a single-valued map gives a
map with the same keys. -/
theorem keys_ParseQuery_Encode (v : Values) (h : v.single) (k : GoString) :
    k ∈ (url.ParseQuery v.Encode).1.map Prod.fst ↔ k ∈ v.map Prod.fst := by
  have hperm : (sortStrings (v.map Prod.fst)).Perm (v.map Prod.fst) :=
    List.perm_insertionSort _ _
  cases hv : v with
  | nil => exact Iff.rfl
  | cons kv rest =>
    rw [← hv]
    have hne : (sortStrings (v.map Prod.fst)).map (fun k => pairText k (v.Get k)) ≠ [] := by
      intro hnil
      have := congrArg List.length hnil
      rw [List.length_map, hperm.length_eq, hv] at this
      simp at this
    have hparse : url.ParseQuery v.Encode
        = (((sortStrings (v.map Prod.fst)).map (fun k => (k, v.Get k))).foldl
            (fun (m : Values) kv => m.Add kv.1 kv.2) [], none) := by
      rw [Encode_eq_joinAmp v h, url.ParseQuery, url.parseQuery,
        splitOn_joinAmp _ hne (fun p hp => by
          obtain ⟨k, _, rfl⟩ := List.mem_map.mp hp
          exact (pairText_shape k (v.Get k)).2.1)]
      rw [← foldl_parseQueryPiece, List.map_map]
      rfl
    rw [hparse, mem_keys_foldl_Add, List.map_map]
    simp only [List.map_nil, List.not_mem_nil, false_or]
    have hid : (Prod.fst ∘ fun k => (k, v.Get k)) = id := rfl
    rw [hid, List.map_id]
    exact hperm.mem_iff

/-- The encoding of a non-empty single-valued map is not empty. -/
theorem Encode_ne_nil (v : Values) (h : v.single) (hne : v ≠ []) : v.Encode ≠ [] := by
  have hperm : (sortStrings (v.map Prod.fst)).Perm (v.map Prod.fst) :=
    List.perm_insertionSort _ _
  rw [Encode_eq_joinAmp v h]
  cases hks : sortStrings (v.map Prod.fst) with
  | nil =>
    have := hperm.length_eq
    rw [hks] at this
    cases v with
    | nil => exact absurd rfl hne
    | cons kv rest => simp at this
  | cons k ks =>
    have hp := (pairText_shape k (v.Get k)).1
    cases ks with
    | nil => simpa [joinAmp] using hp
    | cons k2 ks2 => simp [joinAmp, hp]

/-- The map that `createQueryString` fills is single-valued. -/
theorem queryOf_single (params : Params) : (queryOf params).single :=
  single_foldl_Set _ [] ⟨List.nodup_nil, fun k hk => by cases hk⟩

/-- The query string of a mapping with at least one entry. -/
theorem queryString_of_cons (e : GoString × GoValue) (es : List (GoString × GoValue)) :
    (queryOf (some (e :: es))).Encode ≠ [] ∧
    createQueryString (some (e :: es)) = ch '?' :: (queryOf (some (e :: es))).Encode := by
  have hne : queryOf (some (e :: es)) ≠ [] := by
    intro hnil
    have hmem := (mem_keys_foldl_Set (e :: es) [] e.1).mpr (Or.inr (by simp))
    have hq : queryOf (some (e :: es))
        = (e :: es).foldl (fun (query : Values) kv => query.Set kv.1 (sprintV kv.2)) [] := rfl
    rw [← hq, hnil] at hmem
    cases hmem
  have henc := Encode_ne_nil _ (queryOf_single (some (e :: es))) hne
  refine ⟨henc, ?_⟩
  have hdef : createQueryString (some (e :: es))
      = if (queryOf (some (e :: es))).Encode = [] then []
        else ch '?' :: (queryOf (some (e :: es))).Encode := rfl
  rw [hdef, if_neg henc]

/-! ### C8: the shape of the query string -/

/-- C8: `createQueryString` returns the empty string for the nil mapping and
for the empty mapping, and for every mapping with at least one entry it
returns `?` followed by a non-empty text, the encoding of the query values. -/
theorem createQueryString_shape :
    createQueryString none = [] ∧ createQueryString (some []) = [] ∧
    ∀ (e : GoString × GoValue) (es : List (GoString × GoValue)),
      (queryOf (some (e :: es))).Encode ≠ [] ∧
      createQueryString (some (e :: es)) = ch '?' :: (queryOf (some (e :: es))).Encode := by
  exact ⟨rfl, rfl, fun e es => queryString_of_cons e es⟩

/-! ### C7: the query string decodes to the mapping -/

/-- C7: for every non-empty mapping (a list of entries with distinct keys),
`createQueryString` returns `?` followed by a text that `url.ParseQuery`
decodes without error into a map with exactly the keys of the mapping, each
bound to the single value that `%v` prints for the original value. -/
theorem createQueryString_round_trip (entries : List (GoString × GoValue))
    (hne : entries ≠ []) (hnodup : (entries.map Prod.fst).Nodup) :
    ∃ q, createQueryString (some entries) = ch '?' :: q ∧
      (url.ParseQuery q).2 = none ∧
      (∀ k, k ∈ (url.ParseQuery q).1.map Prod.fst ↔ k ∈ entries.map Prod.fst) ∧
      (∀ k v, (k, v) ∈ entries → (url.ParseQuery q).1.index k = [sprintV v]) := by
  obtain ⟨e, es, rfl⟩ := List.exists_cons_of_ne_nil hne
  have hq : queryOf (some (e :: es))
      = (e :: es).foldl (fun (query : Values) kv => query.Set kv.1 (sprintV kv.2)) [] := rfl
  have hsingle := queryOf_single (some (e :: es))
  obtain ⟨herr, hidx⟩ := ParseQuery_Encode _ hsingle
  refine ⟨(queryOf (some (e :: es))).Encode, (queryString_of_cons e es).2, herr, ?_, ?_⟩
  · intro k
    rw [keys_ParseQuery_Encode _ hsingle, hq, mem_keys_foldl_Set]
    simp
  · intro k v hkv
    rw [hidx, hq]
    exact index_foldl_Set_of_mem _ [] k v hnodup hkv

/-- Witness for C7: the parameters of a list call. -/
theorem createQueryString_round_trip_witness :
    ∃ q, createQueryString (some [(str "$top", .int 10), (str "$count", .bool true)])
        = ch '?' :: q ∧
      (url.ParseQuery q).2 = none ∧
      (∀ k, k ∈ (url.ParseQuery q).1.map Prod.fst ↔
        k ∈ [(str "$top", GoValue.int 10), (str "$count", GoValue.bool true)].map Prod.fst) ∧
      (∀ k v, (k, v) ∈ [(str "$top", GoValue.int 10), (str "$count", GoValue.bool true)] →
        (url.ParseQuery q).1.index k = [sprintV v]) :=
  createQueryString_round_trip [(str "$top", .int 10), (str "$count", .bool true)]
    (by simp) (by decide)

/-! ### The query component of a parsed link -/

/-- A text that ends in its only occurrence of `c` has nothing after the
first `c`. -/
theorem cut_of_last (c : Byte) (s : GoString) (hlast : s.getLast? = some c)
    (hcount : s.count c = 1) : (cut c s).2.1 = [] := by
  induction s with
  | nil => rfl
  | cons a rest ih =>
    by_cases hac : a = c
    · subst hac
      have hzero : rest.count a = 0 := by simpa [List.count_cons] using hcount
      have hnot : a ∉ rest := List.count_eq_zero.mp hzero
      cases hrest : rest with
      | nil => simp [cut]
      | cons b bs =>
        exfalso
        rw [hrest, List.getLast?_cons_cons] at hlast
        apply hnot
        rw [hrest]
        exact List.mem_of_getLast?_eq_some hlast
    · cases hrest : rest with
      | nil =>
        simp [hrest] at hlast
        exact absurd hlast hac
      | cons b bs =>
        rw [hrest, List.getLast?_cons_cons] at hlast
        have hc2 : (b :: bs).count c = 1 := by
          rw [hrest] at hcount
          simpa [List.count_cons, hac] using hcount
        rw [hrest] at ih
        rw [cut]
        simp only [hac, if_false]
        exact ih hlast hc2

/-- The loop of `getScheme` hands on a rest with the same text after its
first `?` as the URL. -/
theorem getSchemeLoop_query (rawURL : GoString) (rest : GoString) (i : Nat)
    (scheme rest0 : GoString)
    (hinv : (cut (ch '?') rest).2.1 = (cut (ch '?') rawURL).2.1)
    (h : url.getSchemeLoop rawURL i rest = .ok (scheme, rest0)) :
    (cut (ch '?') rest0).2.1 = (cut (ch '?') rawURL).2.1 := by
  induction rest generalizing i with
  | nil =>
    simp only [url.getSchemeLoop, Except.ok.injEq, Prod.mk.injEq] at h
    rw [← h.2]
  | cons c cs ih =>
    rw [url.getSchemeLoop] at h
    by_cases hq : c = ch '?'
    · subst hq
      have h1 : ¬ ((ch 'a' ≤ ch '?' ∧ ch '?' ≤ ch 'z') ∨ (ch 'A' ≤ ch '?' ∧ ch '?' ≤ ch 'Z')) := by
        decide
      have h2 : ¬ ((ch '0' ≤ ch '?' ∧ ch '?' ≤ ch '9') ∨ ch '?' = ch '+' ∨ ch '?' = ch '-' ∨
          ch '?' = ch '.') := by decide
      have h3 : ¬ ch '?' = ch ':' := by decide
      simp only [h1, h2, h3, if_false, Except.ok.injEq, Prod.mk.injEq] at h
      rw [← h.2]
    · have hcs : (cut (ch '?') cs).2.1 = (cut (ch '?') rawURL).2.1 := by
        rw [← hinv]
        simp [cut, hq]
      split_ifs at h
      · exact ih _ hcs h
      · simp only [Except.ok.injEq, Prod.mk.injEq] at h
        rw [← h.2]
      · exact ih _ hcs h
      · simp only [Except.ok.injEq, Prod.mk.injEq] at h
        rw [← h.2]
        exact hcs
      · simp only [Except.ok.injEq, Prod.mk.injEq] at h
        rw [← h.2]

/-- The function `setPath` leaves the query alone. -/
theorem setPath_RawQuery (u u2 : url.URL) (p : GoString) (h : url.setPath u p = .ok u2) :
    u2.RawQuery = u.RawQuery := by
  unfold url.setPath at h
  cases hun : url.unescape .encodePath p with
  | error e => rw [hun] at h; cases h
  | ok path =>
    rw [hun] at h
    simp only [Except.map, Except.ok.injEq] at h
    rw [← h]

/-- The function `setFragment` leaves the query alone. -/
theorem setFragment_RawQuery (u u2 : url.URL) (f : GoString)
    (h : url.setFragment u f = .ok u2) : u2.RawQuery = u.RawQuery := by
  unfold url.setFragment at h
  cases hun : url.unescape .encodeFragment f with
  | error e => rw [hun] at h; cases h
  | ok frag =>
    rw [hun] at h
    simp only [Except.map, Except.ok.injEq] at h
    rw [← h]

/-- The second half of `parse` leaves the query alone. -/
theorem parseAfterQuery_RawQuery (u u2 : url.URL) (rest : GoString)
    (h : url.parseAfterQuery u rest = .ok u2) : u2.RawQuery = u.RawQuery := by
  unfold url.parseAfterQuery at h
  split_ifs at h
  · simp only [Except.ok.injEq] at h
    rw [← h]
  · simp only [] at h
    cases hauth : url.parseAuthority (cut (ch '/') (rest.drop 2)).1 with
    | error e => rw [hauth] at h; cases h
    | ok uh =>
      obtain ⟨user, host⟩ := uh
      rw [hauth] at h
      exact (setPath_RawQuery _ _ _ h).trans rfl
  · exact (setPath_RawQuery _ _ _ h).trans rfl

/-- The query that `parse` stores is the text after the first `?`. -/
theorem parse_RawQuery (rawURL : GoString) (u : url.URL) (h : url.parse rawURL = .ok u) :
    u.RawQuery = (cut (ch '?') rawURL).2.1 := by
  unfold url.parse at h
  split_ifs at h with hctl hstar
  · simp only [Except.ok.injEq] at h
    rw [← h, hstar]
    decide
  · cases hsch : url.getScheme rawURL with
    | error e => rw [hsch] at h; cases h
    | ok sr =>
      obtain ⟨scheme, rest0⟩ := sr
      rw [hsch] at h
      have hrest := getSchemeLoop_query rawURL rawURL 0 scheme rest0 rfl hsch
      rw [parseAfterQuery_RawQuery _ _ _ h]
      by_cases hforce : (rest0.getLast? = some (ch '?') && rest0.count (ch '?') = 1) = true
      · simp only [hforce, if_true]
        rw [← hrest]
        simp only [Bool.and_eq_true, decide_eq_true_eq] at hforce
        exact (cut_of_last _ _ hforce.1 hforce.2).symm
      · simp only [hforce, if_false]
        exact hrest

/-- The query that `url.Parse` stores is the query component of the link. -/
theorem Parse_RawQuery (link : GoString) (u : url.URL) (h : url.Parse link = .ok u) :
    u.RawQuery = queryComponent link := by
  unfold url.Parse at h
  unfold queryComponent
  cases hp : url.parse (cut (ch '#') link).1 with
  | error e => simp only [hp] at h; cases h
  | ok u0 =>
    simp only [hp] at h
    split_ifs at h
    · simp only [Except.ok.injEq] at h
      rw [← h]
      exact parse_RawQuery _ _ hp
    · rw [setFragment_RawQuery _ _ _ h]
      exact parse_RawQuery _ _ hp

/-! ### C9: the first binding of a key -/

/-- One piece of a query only appends to the values of a key, and a piece
whose key does not decode to the key leaves them alone. -/
theorem parseQueryPiece_index (st : Values × Option GoError) (p key : GoString) :
    (∃ extra, (url.parseQueryPiece st p).1.index key = st.1.index key ++ extra) ∧
    (url.QueryUnescape (cut (ch '=') p).1 ≠ .ok key →
      (url.parseQueryPiece st p).1.index key = st.1.index key) := by
  unfold url.parseQueryPiece
  by_cases hsemi : containsByte (ch ';') p = true
  · simp [hsemi]
  · by_cases hnil : p = []
    · subst hnil
      have hc : containsByte (ch ';') [] = false := rfl
      simp [hc]
    · simp only [hsemi, hnil, Bool.false_eq_true, if_false]
      cases hk : url.QueryUnescape (cut (ch '=') p).1 with
      | error e => simp
      | ok k =>
        cases hv : url.QueryUnescape (cut (ch '=') p).2.1 with
        | error e => simp
        | ok value =>
          simp only [Values.Add, Values.index_store]
          by_cases hkk : k = key
          · subst hkk
            simp
          · simp [hkk]

/-- A run of pieces only appends to the values of a key. -/
theorem foldl_parseQueryPiece_index (l : List GoString) (st : Values × Option GoError)
    (key : GoString) :
    ∃ extra, (l.foldl url.parseQueryPiece st).1.index key = st.1.index key ++ extra := by
  induction l generalizing st with
  | nil => exact ⟨[], by simp⟩
  | cons p ps ih =>
    obtain ⟨e1, h1⟩ := (parseQueryPiece_index st p key).1
    obtain ⟨e2, h2⟩ := ih (url.parseQueryPiece st p)
    exact ⟨e1 ++ e2, by rw [List.foldl_cons, h2, h1, List.append_assoc]⟩

/-- A run of pieces none of which has the key leaves its values alone. -/
theorem foldl_parseQueryPiece_other (l : List GoString) (st : Values × Option GoError)
    (key : GoString) (h : ∀ p ∈ l, url.QueryUnescape (cut (ch '=') p).1 ≠ .ok key) :
    (l.foldl url.parseQueryPiece st).1.index key = st.1.index key := by
  induction l generalizing st with
  | nil => rfl
  | cons p ps ih =>
    rw [List.foldl_cons, ih _ (fun q hq => h q (List.mem_cons_of_mem _ hq)),
      (parseQueryPiece_index st p key).2 (h p (List.mem_cons_self _ _))]

/-- The first piece of a query that binds a key decides `Get`. -/
theorem Get_ParseQuery_first (query key value : GoString) (before after : List GoString)
    (piece : GoString)
    (hsplit : splitOn (ch '&') query = before ++ piece :: after)
    (hbefore : ∀ p ∈ before, url.QueryUnescape (cut (ch '=') p).1 ≠ .ok key)
    (hpiece : piece ≠ [] ∧ ch ';' ∉ piece)
    (hkey : url.QueryUnescape (cut (ch '=') piece).1 = .ok key)
    (hvalue : url.QueryUnescape (cut (ch '=') piece).2.1 = .ok value) :
    (url.ParseQuery query).1.Get key = value := by
  have hc : containsByte (ch ';') piece = false := by simpa [containsByte] using hpiece.2
  have hstep : ∀ st : Values × Option GoError,
      (url.parseQueryPiece st piece).1.index key = st.1.index key ++ [value] := by
    intro st
    unfold url.parseQueryPiece
    simp [hc, hpiece.1, hkey, hvalue, Values.Add, Values.index_store]
  obtain ⟨extra, hextra⟩ := foldl_parseQueryPiece_index after
    (url.parseQueryPiece (before.foldl url.parseQueryPiece ([], none)) piece) key
  have hidx : (url.ParseQuery query).1.index key = value :: extra := by
    rw [url.ParseQuery, url.parseQuery, hsplit, List.foldl_append, List.foldl_cons, hextra,
      hstep, foldl_parseQueryPiece_other before _ key hbefore]
    rfl
  simp [Values.Get, hidx]

/-- C9: for every link that `url.Parse` accepts and whose query component,
split at `&`, has a first piece whose key decodes to `key` (a non-empty piece
without `;`, with a decodable value), `parsePageLink` returns normally with
exactly the decoded value of that piece. -/
theorem parsePageLink_first_binding (link key value : GoString)
    (before after : List GoString) (piece : GoString)
    (hparse : ∃ u, url.Parse link = .ok u)
    (hsplit : splitOn (ch '&') (queryComponent link) = before ++ piece :: after)
    (hbefore : ∀ p ∈ before, url.QueryUnescape (cut (ch '=') p).1 ≠ .ok key)
    (hpiece : piece ≠ [] ∧ ch ';' ∉ piece)
    (hkey : url.QueryUnescape (cut (ch '=') piece).1 = .ok key)
    (hvalue : url.QueryUnescape (cut (ch '=') piece).2.1 = .ok value) :
    parsePageLink link key = .returned value := by
  obtain ⟨u, hu⟩ := hparse
  have hraw := Parse_RawQuery link u hu
  unfold parsePageLink
  simp only [hu, url.URL.QueryOfPtr, url.URL.Query, hraw]
  rw [Get_ParseQuery_first (queryComponent link) key value before after piece hsplit hbefore
    hpiece hkey hvalue]

/-- Witness for C9: the link `https://.../x?$skip=10&$top=10` and the key
`$skip` give exactly `10`. -/
theorem parsePageLink_first_binding_witness :
    parsePageLink (str "https://.../x?$skip=10&$top=10") (str "$skip") = .returned (str "10") :=
  parsePageLink_first_binding (str "https://.../x?$skip=10&$top=10") (str "$skip") (str "10")
    [] [str "$top=10"] (str "$skip=10")
    ⟨{ Scheme := str "https", Host := str "...", Path := str "/x",
       RawQuery := str "$skip=10&$top=10" }, by decide⟩
    (by decide) (by intro p hp; cases hp) (by decide) (by decide) (by decide)

/-! ### `parsePageLink`: when it returns, and the absent key -/

/-- The function `parsePageLink` returns normally exactly for the links that
`url.Parse` accepts; for every other link it panics, whatever the key. -/
theorem parsePageLink_returns_iff (link key : GoString) :
    (∃ value, parsePageLink link key = .returned value) ↔ ∃ u, url.Parse link = .ok u := by
  unfold parsePageLink
  cases hp : url.Parse link with
  | error e =>
    simp only [url.URL.QueryOfPtr]
    constructor
    · rintro ⟨value, h⟩
      cases h
    · rintro ⟨u, h⟩
      cases h
  | ok u =>
    simp only [url.URL.QueryOfPtr]
    exact ⟨fun _ => ⟨u, rfl⟩, fun _ => ⟨_, rfl⟩⟩

/-- For a link that `url.Parse` accepts and whose query component has no piece
with the key, `parsePageLink` returns the empty string. -/
theorem parsePageLink_absent_key (link key : GoString) (u : url.URL)
    (hparse : url.Parse link = .ok u)
    (habsent : ∀ p ∈ splitOn (ch '&') (queryComponent link),
      url.QueryUnescape (cut (ch '=') p).1 ≠ .ok key) :
    parsePageLink link key = .returned [] := by
  have hraw := Parse_RawQuery link u hparse
  have hidx : (url.ParseQuery (queryComponent link)).1.index key = [] := by
    rw [url.ParseQuery, url.parseQuery, foldl_parseQueryPiece_other _ _ key habsent]
    rfl
  unfold parsePageLink
  simp only [hparse, url.URL.QueryOfPtr, url.URL.Query, hraw, Values.Get, hidx]

/-- The client that `NewClient` returns without options. -/
theorem NewClient_default : NewClient [] = .ok defaultClient := by
  decide

/-! ### The request that `Client.NewRequest` builds -/

/-- The headers that `Client.NewRequest` adds to the empty header of a new
request. -/
theorem added_headers (mt ua : GoString) :
    Values.Add (Values.Add (Values.Add [] (str "Content-Type") mt) (str "Accept") mediaType)
      (str "User-Agent") ua
      = [(str "Content-Type", [mt]), (str "Accept", [mediaType]), (str "User-Agent", [ua])] := by
  have h1 : ¬ str "Content-Type" = str "Accept" := by decide
  have h2 : ¬ str "Content-Type" = str "User-Agent" := by decide
  have h3 : ¬ str "Accept" = str "User-Agent" := by decide
  simp [Values.Add, Values.store, Values.index, h1, h2, h3]

/-- What `http.NewRequest` returns when it succeeds. -/
theorem http_NewRequest_ok (method urlStr body : GoString) (req : Request)
    (h : http.NewRequest method urlStr body = .ok req) :
    ∃ u, url.Parse urlStr = .ok u ∧
      req = { Method := if method = [] then str "GET" else method, URL := storedURL u,
              Header := [], Body := body } := by
  unfold http.NewRequest at h
  simp only [] at h
  generalize (if method = [] then str "GET" else method) = m at h ⊢
  by_cases hv : http.validMethod m = true
  · simp only [hv, Bool.not_true, Bool.false_eq_true, if_false] at h
    cases hp : url.Parse urlStr with
    | error e => rw [hp] at h; cases h
    | ok u =>
      rw [hp] at h
      simp only [Except.ok.injEq] at h
      exact ⟨u, rfl, h.symm⟩
  · simp only [hv, Bool.not_false, if_true] at h
    cases h

/-- When `http.NewRequest` succeeds. -/
theorem http_NewRequest_of_valid (method urlStr body : GoString) (u : url.URL)
    (hm : http.validMethod (if method = [] then str "GET" else method) = true)
    (hu : url.Parse urlStr = .ok u) :
    http.NewRequest method urlStr body
      = .ok { Method := if method = [] then str "GET" else method, URL := storedURL u,
              Header := [], Body := body } := by
  unfold http.NewRequest
  simp only [hm, hu, Bool.not_true, Bool.false_eq_true, if_false]
  rfl

/-- What `Client.NewRequest` returns when it succeeds: the request for the
target URL with the encoded body and the three headers. -/
theorem NewRequest_ok (client : Client) (method path : GoString) (body : Body) (req : Request)
    (h : client.NewRequest method path body = .ok req) :
    ∃ pathURL payload u, url.Parse path = .ok pathURL ∧
      client.encodeBody body = .ok payload ∧
      url.Parse (client.targetText path pathURL) = .ok u ∧
      req = { Method := if method = [] then str "GET" else method, URL := storedURL u,
              Header := [(str "Content-Type", [client.mediaType]), (str "Accept", [mediaType]),
                (str "User-Agent", [client.userAgent])],
              Body := payload } := by
  unfold Client.NewRequest at h
  cases hp : url.Parse path with
  | error e => rw [hp] at h; cases h
  | ok pathURL =>
    rw [hp] at h
    simp only [] at h
    cases he : client.encodeBody body with
    | error e => rw [he] at h; cases h
    | ok payload =>
      rw [he] at h
      simp only [] at h
      cases hr : http.NewRequest method
          (if pathURL.Hostname ≠ [] then path else client.baseURL ++ path) payload with
      | error e => rw [hr] at h; cases h
      | ok req0 =>
        rw [hr] at h
        obtain ⟨u, hu, hreq0⟩ := http_NewRequest_ok _ _ _ _ hr
        simp only [Except.ok.injEq] at h
        refine ⟨pathURL, payload, u, rfl, rfl, hu, ?_⟩
        rw [← h, hreq0]
        simp only [added_headers]

/-- When `Client.NewRequest` succeeds. -/
theorem NewRequest_of_valid (client : Client) (method path : GoString) (body : Body)
    (pathURL u : url.URL) (payload : GoString)
    (hp : url.Parse path = .ok pathURL) (he : client.encodeBody body = .ok payload)
    (hm : http.validMethod (if method = [] then str "GET" else method) = true)
    (hu : url.Parse (client.targetText path pathURL) = .ok u) :
    client.NewRequest method path body
      = .ok { Method := if method = [] then str "GET" else method, URL := storedURL u,
              Header := [(str "Content-Type", [client.mediaType]), (str "Accept", [mediaType]),
                (str "User-Agent", [client.userAgent])],
              Body := payload } := by
  unfold Client.NewRequest
  rw [hp]
  simp only [he]
  have hr := http_NewRequest_of_valid method (client.targetText path pathURL) payload u hm hu
  unfold Client.targetText at hr
  rw [hr]
  simp only [added_headers]

/-! ### C11: the target of a request -/

/-- C11: for every path that `url.Parse` accepts, a request that
`Client.NewRequest` builds targets the parsed path itself when the host name
of the parsed path is not empty, and otherwise the parse of the client's base
URL followed by the path; and it builds a request whenever the body can be
encoded, the method is valid and that target parses. -/
theorem NewRequest_target (client : Client) (method path : GoString) (body : Body)
    (pathURL : url.URL) (hpath : url.Parse path = .ok pathURL) :
    (pathURL.Hostname ≠ [] →
      ∀ req, client.NewRequest method path body = .ok req → req.URL = storedURL pathURL) ∧
    (pathURL.Hostname = [] →
      ∀ req, client.NewRequest method path body = .ok req →
        ∃ u, url.Parse (client.baseURL ++ path) = .ok u ∧ req.URL = storedURL u) ∧
    (∀ payload u, client.encodeBody body = .ok payload →
      http.validMethod (if method = [] then str "GET" else method) = true →
      url.Parse (if pathURL.Hostname ≠ [] then path else client.baseURL ++ path) = .ok u →
      ∃ req, client.NewRequest method path body = .ok req ∧ req.URL = storedURL u) := by
  refine ⟨?_, ?_, ?_⟩
  · intro hhost req hreq
    obtain ⟨pathURL2, payload, u, hp2, _, hu, rfl⟩ := NewRequest_ok _ _ _ _ _ hreq
    rw [hpath] at hp2
    cases hp2
    simp only [Client.targetText, hhost, ne_eq, not_false_eq_true, if_true] at hu
    rw [hpath] at hu
    cases hu
    rfl
  · intro hhost req hreq
    obtain ⟨pathURL2, payload, u, hp2, _, hu, rfl⟩ := NewRequest_ok _ _ _ _ _ hreq
    rw [hpath] at hp2
    cases hp2
    simp only [Client.targetText, hhost, ne_eq, not_true_eq_false, if_false] at hu
    exact ⟨u, hu, rfl⟩
  · intro payload u he hm hu
    exact ⟨_, NewRequest_of_valid client method path body pathURL u payload hpath he hm hu, rfl⟩

/-- Witness for C11: on the default client the relative path `/me/calendars`
targets `https://graph.microsoft.com/v1.0/me/calendars`. -/
theorem NewRequest_target_witness :
    ∃ req, defaultClient.NewRequest (str "GET") (str "/me/calendars") none = .ok req ∧
      req.URL = storedURL { Scheme := str "https", Host := str "graph.microsoft.com",
                            Path := str "/v1.0/me/calendars" } :=
  (NewRequest_target defaultClient (str "GET") (str "/me/calendars") none
    { Path := str "/me/calendars" } (by decide)).2.2 [] _ rfl (by decide) (by decide)

/-! ### C12: the headers of a request -/

/-- A provided option leaves the user agent alone. -/
theorem providedOpt_userAgent (opt : ClientOpt) (h : providedOpt opt) (c : Client) :
    (opt c).userAgent = c.userAgent := by
  obtain ⟨text, h1 | h1 | h1 | h1 | h1⟩ := h <;> subst h1 <;> rfl

/-- Provided options leave the user agent alone. -/
theorem foldl_providedOpt_userAgent (opts : List ClientOpt)
    (h : ∀ opt ∈ opts, providedOpt opt) (c : Client) :
    (opts.foldl (fun client opt => opt client) c).userAgent = c.userAgent := by
  induction opts generalizing c with
  | nil => rfl
  | cons opt rest ih =>
    rw [List.foldl_cons, ih (fun o ho => h o (List.mem_cons_of_mem _ ho)),
      providedOpt_userAgent opt (h opt (List.mem_cons_self _ _))]

/-- C12: every request that `Client.NewRequest` builds carries exactly one
`Content-Type`, the client's media type, exactly one `Accept`,
`application/json`, and exactly one `User-Agent`, the client's user agent; and
the user agent of every client that `NewClient` makes from the provided
options is `go-outlook/0.1.0`. -/
theorem NewRequest_headers (client : Client) (method path : GoString) (body : Body)
    (req : Request) (hreq : client.NewRequest method path body = .ok req) :
    req.Header.index (str "Content-Type") = [client.mediaType] ∧
    req.Header.index (str "Accept") = [str "application/json"] ∧
    req.Header.index (str "User-Agent") = [client.userAgent] ∧
    req.Header.Get (str "Content-Type") = client.mediaType ∧
    req.Header.Get (str "Accept") = str "application/json" ∧
    req.Header.Get (str "User-Agent") = client.userAgent ∧
    (∀ (opts : List ClientOpt) (made : Client), (∀ opt ∈ opts, providedOpt opt) →
      NewClient opts = .ok made → made.userAgent = str "go-outlook/0.1.0") := by
  obtain ⟨pathURL, payload, u, _, _, _, rfl⟩ := NewRequest_ok _ _ _ _ _ hreq
  have h1 : ¬ str "Content-Type" = str "Accept" := by decide
  have h2 : ¬ str "Content-Type" = str "User-Agent" := by decide
  have h3 : ¬ str "Accept" = str "User-Agent" := by decide
  refine ⟨?_, ?_, ?_, ?_, ?_, ?_, ?_⟩
  · simp [Values.index]
  · simp [Values.index, h1, mediaType]
  · simp [Values.index, h2, h3]
  · simp [Values.Get, Values.index]
  · simp [Values.Get, Values.index, h1, mediaType]
  · simp [Values.Get, Values.index, h2, h3]
  · intro opts made hopts hmade
    unfold NewClient at hmade
    cases hp : url.Parse DefaultBaseURL with
    | error e => rw [hp] at hmade; cases hmade
    | ok u0 =>
      rw [hp] at hmade
      simp only [Except.ok.injEq] at hmade
      rw [← hmade, foldl_providedOpt_userAgent opts hopts]
      decide

/-- Witness for C12: the headers of a request of the default client. -/
theorem NewRequest_headers_witness :
    ∃ req, defaultClient.NewRequest (str "GET") (str "/me/calendars") none = .ok req ∧
      req.Header.Get (str "Content-Type") = str "application/json" ∧
      req.Header.Get (str "Accept") = str "application/json" ∧
      req.Header.Get (str "User-Agent") = str "go-outlook/0.1.0" :=
  have hreq : defaultClient.NewRequest (str "GET") (str "/me/calendars") none
      = .ok { Method := str "GET",
              URL := storedURL { Scheme := str "https", Host := str "graph.microsoft.com",
                                 Path := str "/v1.0/me/calendars" },
              Header := [(str "Content-Type", [str "application/json"]),
                (str "Accept", [str "application/json"]),
                (str "User-Agent", [str "go-outlook/0.1.0"])] } := by decide
  have h := NewRequest_headers defaultClient (str "GET") (str "/me/calendars") none _ hreq
  ⟨_, hreq, h.2.2.2.1, h.2.2.2.2.1, h.2.2.2.2.2.1⟩

/-! ### The token refresh -/

/-- The token request is always built: `DefaultOAuthTokenURL` parses and has
a host, `POST` is a valid method and the body is a `url.Values`. -/
theorem refresh_NewRequest (session : Session) (json : Except GoString GoString) :
    (session.client.SetMediaType (str "application/x-www-form-urlencoded")).NewRequest
      (str "POST") DefaultOAuthTokenURL (some ⟨some session.refreshBody, json⟩)
      = .ok (tokenRequest session) := by
  have hne : str "application/x-www-form-urlencoded" ≠ str "application/json" := by decide
  have hp : url.Parse DefaultOAuthTokenURL = .ok tokenURL := by decide
  have hhost : tokenURL.Hostname ≠ [] := by decide
  rw [NewRequest_of_valid _ (str "POST") DefaultOAuthTokenURL _ tokenURL tokenURL
    session.refreshBody.Encode hp
    (by simp [Client.encodeBody, Client.SetMediaType, hne])
    (by decide)
    (by simp only [Client.targetText, hhost, ne_eq, not_false_eq_true, if_true]; exact hp)]
  rfl

/-- The method `refreshAccessToken`, case by case: the round trip fails, the
response is refused by `checkResponse`, the body does not decode, or the
decoded access token is stored.  In every case the client ends with the
constant `mediaType`. -/
theorem refreshAccessToken_cases (rt : Transport) (codec : JSONCodec) (session : Session) :
    session.refreshAccessToken rt codec =
      match rt (tokenRequest session) with
      | .error e => (session.restored, some (.io e))
      | .ok res =>
        match checkResponse res with
        | some err => (session.restored, some err)
        | none =>
          match codec.decodeToken res.Body with
          | .error err => (session.restored, some err)
          | .ok tok => ({ session.restored with accessToken := tok.AccessToken }, none) := by
  unfold Session.refreshAccessToken
  simp only [refresh_NewRequest, Client.Do]
  cases hrt : rt (tokenRequest session) with
  | error e => rfl
  | ok res =>
    simp only []
    cases hcheck : checkResponse res with
    | some err => rfl
    | none =>
      simp only []
      cases hdec : codec.decodeToken res.Body with
      | error err => rfl
      | ok tok => rfl

/-- After `refreshAccessToken` the client is the client before the call with
the media type set to the constant `mediaType`, whatever the outcome. -/
theorem refreshAccessToken_client (rt : Transport) (codec : JSONCodec) (session : Session) :
    (session.refreshAccessToken rt codec).1.client = session.client.SetMediaType mediaType := by
  rw [refreshAccessToken_cases]
  cases rt (tokenRequest session) with
  | error e => rfl
  | ok res =>
    simp only []
    cases checkResponse res with
    | some err => rfl
    | none =>
      simp only []
      cases codec.decodeToken res.Body <;> rfl

/-- The function `NewSession` in terms of `refreshAccessToken`. -/
theorem NewSession_eq (rt : Transport) (codec : JSONCodec) (client : Client)
    (refreshToken : GoString) :
    NewSession rt codec client refreshToken =
      (client.SetMediaType mediaType,
        match ((initialSession client refreshToken).refreshAccessToken rt codec).2 with
        | some err => .error err
        | none => .ok ((initialSession client refreshToken).refreshAccessToken rt codec).1) := by
  have hc := refreshAccessToken_client rt codec (initialSession client refreshToken)
  unfold NewSession
  simp only []
  change (match (initialSession client refreshToken).refreshAccessToken rt codec with
    | (s, some err) => (s.client, Except.error err)
    | (s, none) => (s.client, Except.ok s)) = _
  rcases hr : (initialSession client refreshToken).refreshAccessToken rt codec with ⟨s, _ | err⟩
  · rw [hr] at hc
    have hc2 : s.client = client.SetMediaType mediaType := hc
    show (s.client, Except.ok s) = (client.SetMediaType mediaType, Except.ok s)
    rw [hc2]
  · rw [hr] at hc
    have hc2 : s.client = client.SetMediaType mediaType := hc
    show (s.client, Except.error err) = (client.SetMediaType mediaType, Except.error err)
    rw [hc2]

/-! ### C13: the media type after a refresh -/

/-- C13, at the failing input: a client configured with
`SetClientMediaType("application/x-www-form-urlencoded")` has the media type
`application/json` after `NewSession` has refreshed the token, because
`refreshAccessToken` puts back the constant `mediaType` and not the value that
the client had before the call. -/
theorem refreshAccessToken_loses_configured_media_type :
    NewClient [SetClientMediaType (str "application/x-www-form-urlencoded")] = .ok formClient ∧
    formClient.mediaType = str "application/x-www-form-urlencoded" ∧
    ((initialSession formClient (str "refresh")).refreshAccessToken
      (tokenTransport tokenObjectText) sampleCodec).2 = none ∧
    ((initialSession formClient (str "refresh")).refreshAccessToken
      (tokenTransport tokenObjectText) sampleCodec).1.client.mediaType
        = str "application/json" ∧
    (NewSession (tokenTransport tokenObjectText) sampleCodec formClient (str "refresh")).1.mediaType
        ≠ formClient.mediaType := by
  decide

/-! ### C14: a successful refresh -/

/-- C14: when `refreshAccessToken` returns no error, the token endpoint has
answered the token request with a response that `checkResponse` accepts and
whose body decodes, the access token of the session is exactly the
`access_token` of the decoded response, the refresh token and the base path
are as before, and the client is the client of before (with the media type
that `refreshAccessToken` puts back). -/
theorem refreshAccessToken_success (rt : Transport) (codec : JSONCodec) (session : Session)
    (hok : (session.refreshAccessToken rt codec).2 = none) :
    ∃ res tok, rt (tokenRequest session) = .ok res ∧ checkResponse res = none ∧
      codec.decodeToken res.Body = .ok tok ∧
      (session.refreshAccessToken rt codec).1.accessToken = tok.AccessToken ∧
      (session.refreshAccessToken rt codec).1.refreshToken = session.refreshToken ∧
      (session.refreshAccessToken rt codec).1.basePath = session.basePath ∧
      (session.refreshAccessToken rt codec).1.client
        = session.client.SetMediaType mediaType := by
  rw [refreshAccessToken_cases] at hok ⊢
  cases hrt : rt (tokenRequest session) with
  | error e => rw [hrt] at hok; cases hok
  | ok res =>
    rw [hrt] at hok
    simp only [] at hok ⊢
    cases hcheck : checkResponse res with
    | some err => rw [hcheck] at hok; cases hok
    | none =>
      rw [hcheck] at hok
      simp only [] at hok ⊢
      cases hdec : codec.decodeToken res.Body with
      | error err => rw [hdec] at hok; cases hok
      | ok tok => exact ⟨res, tok, rfl, hcheck, hdec, rfl, rfl, rfl, rfl⟩

/-- Witness for C14: the token endpoint answers with the access token `tok`. -/
theorem refreshAccessToken_success_witness :
    ∃ res tok, tokenTransport tokenObjectText
        (tokenRequest (initialSession defaultClient (str "refresh"))) = .ok res ∧
      checkResponse res = none ∧ sampleCodec.decodeToken res.Body = .ok tok ∧
      ((initialSession defaultClient (str "refresh")).refreshAccessToken
        (tokenTransport tokenObjectText) sampleCodec).1.accessToken = tok.AccessToken ∧
      ((initialSession defaultClient (str "refresh")).refreshAccessToken
        (tokenTransport tokenObjectText) sampleCodec).1.refreshToken = str "refresh" ∧
      ((initialSession defaultClient (str "refresh")).refreshAccessToken
        (tokenTransport tokenObjectText) sampleCodec).1.basePath = str "/me" ∧
      ((initialSession defaultClient (str "refresh")).refreshAccessToken
        (tokenTransport tokenObjectText) sampleCodec).1.client
          = defaultClient.SetMediaType mediaType :=
  refreshAccessToken_success (tokenTransport tokenObjectText) sampleCodec
    (initialSession defaultClient (str "refresh")) (by decide)

/-- The outcomes of `refreshAccessToken`: either it returns an error and the
access token is as before, or the token endpoint has answered with an accepted
response whose body decodes and the access token is the decoded one. -/
theorem refreshAccessToken_outcome (rt : Transport) (codec : JSONCodec) (session : Session) :
    (∃ err, (session.refreshAccessToken rt codec).2 = some err ∧
      (session.refreshAccessToken rt codec).1.accessToken = session.accessToken ∧
      ((∃ e, rt (tokenRequest session) = .error e ∧ err = .io e) ∨
       (∃ res, rt (tokenRequest session) = .ok res ∧ checkResponse res = some err) ∨
       (∃ res, rt (tokenRequest session) = .ok res ∧ checkResponse res = none ∧
          codec.decodeToken res.Body = .error err))) ∨
    (∃ res tok, (session.refreshAccessToken rt codec).2 = none ∧
      rt (tokenRequest session) = .ok res ∧ checkResponse res = none ∧
      codec.decodeToken res.Body = .ok tok ∧
      (session.refreshAccessToken rt codec).1.accessToken = tok.AccessToken) := by
  rw [refreshAccessToken_cases]
  cases hrt : rt (tokenRequest session) with
  | error e => exact Or.inl ⟨.io e, rfl, rfl, Or.inl ⟨e, rfl, rfl⟩⟩
  | ok res =>
    simp only []
    cases hcheck : checkResponse res with
    | some err => exact Or.inl ⟨err, rfl, rfl, Or.inr (Or.inl ⟨res, rfl, hcheck⟩)⟩
    | none =>
      simp only []
      cases hdec : codec.decodeToken res.Body with
      | error err => exact Or.inl ⟨err, rfl, rfl, Or.inr (Or.inr ⟨res, rfl, hcheck, hdec⟩)⟩
      | ok tok => exact Or.inr ⟨res, tok, rfl, rfl, hcheck, hdec, rfl⟩

/-! ### C15: the access token and the refresh -/

/-- C15, as stated, fails: when the token endpoint answers `200` with the
empty JSON object, the refresh succeeds, `NewSession` returns a session and no
error, and the access token of that session is empty. -/
theorem NewSession_empty_access_token :
    checkResponse { StatusCode := 200, Body := { data := emptyObjectText } } = none ∧
    sampleCodec.decodeToken { data := emptyObjectText } = .ok {} ∧
    ((initialSession defaultClient (str "refresh")).refreshAccessToken
      (tokenTransport emptyObjectText) sampleCodec).2 = none ∧
    (NewSession (tokenTransport emptyObjectText) sampleCodec defaultClient (str "refresh")).2
      = .ok { client := defaultClient, basePath := str "/me", accessToken := [],
              refreshToken := str "refresh" } := by
  decide

/-- C15, amended: the session that `NewSession` starts from has an empty
access token; a refresh that returns an error leaves the access token as it
was; a refresh that returns no error sets it to the `access_token` of the
decoded token response, so that afterwards, and in every session that
`NewSession` returns, the access token is empty if and only if that
`access_token` is empty. -/
theorem accessToken_after_refresh (rt : Transport) (codec : JSONCodec) (session : Session) :
    (∀ client refreshToken, (initialSession client refreshToken).accessToken = []) ∧
    ((session.refreshAccessToken rt codec).2 ≠ none →
      (session.refreshAccessToken rt codec).1.accessToken = session.accessToken) ∧
    ((session.refreshAccessToken rt codec).2 = none →
      ∃ res tok, rt (tokenRequest session) = .ok res ∧ checkResponse res = none ∧
        codec.decodeToken res.Body = .ok tok ∧
        (session.refreshAccessToken rt codec).1.accessToken = tok.AccessToken ∧
        ((session.refreshAccessToken rt codec).1.accessToken = [] ↔ tok.AccessToken = [])) ∧
    (∀ client refreshToken made,
      (NewSession rt codec client refreshToken).2 = .ok made →
      ∃ res tok, rt (tokenRequest (initialSession client refreshToken)) = .ok res ∧
        checkResponse res = none ∧ codec.decodeToken res.Body = .ok tok ∧
        made.accessToken = tok.AccessToken ∧ (made.accessToken = [] ↔ tok.AccessToken = [])) := by
  have key : ∀ s : Session, (s.refreshAccessToken rt codec).2 = none →
      ∃ res tok, rt (tokenRequest s) = .ok res ∧ checkResponse res = none ∧
        codec.decodeToken res.Body = .ok tok ∧
        (s.refreshAccessToken rt codec).1.accessToken = tok.AccessToken := by
    intro s hnone
    rcases refreshAccessToken_outcome rt codec s with ⟨err, herr, _⟩ | ⟨res, tok, _, h1, h2, h3, h4⟩
    · rw [herr] at hnone
      cases hnone
    · exact ⟨res, tok, h1, h2, h3, h4⟩
  refine ⟨fun _ _ => rfl, ?_, ?_, ?_⟩
  · intro hne
    rcases refreshAccessToken_outcome rt codec session with
      ⟨err, _, hsame, _⟩ | ⟨res, tok, hnone, _⟩
    · exact hsame
    · exact absurd hnone hne
  · intro hnone
    obtain ⟨res, tok, h1, h2, h3, h4⟩ := key session hnone
    exact ⟨res, tok, h1, h2, h3, h4, by rw [h4]⟩
  · intro client refreshToken made hmade
    rw [NewSession_eq] at hmade
    simp only [] at hmade
    cases hr : ((initialSession client refreshToken).refreshAccessToken rt codec).2 with
    | some err => rw [hr] at hmade; cases hmade
    | none =>
      rw [hr] at hmade
      simp only [Except.ok.injEq] at hmade
      obtain ⟨res, tok, h1, h2, h3, h4⟩ := key _ hr
      rw [hmade] at h4
      exact ⟨res, tok, h1, h2, h3, h4, by rw [h4]⟩

/-- Witness for C15: with the token endpoint answering with the access token
`tok`, the session that `NewSession` returns holds `tok`. -/
theorem accessToken_after_refresh_witness :
    ∃ res tok, tokenTransport tokenObjectText
        (tokenRequest (initialSession defaultClient (str "refresh"))) = .ok res ∧
      checkResponse res = none ∧ sampleCodec.decodeToken res.Body = .ok tok ∧
      ({ client := defaultClient, basePath := str "/me", accessToken := str "tok",
         refreshToken := str "refresh" } : Session).accessToken = tok.AccessToken ∧
      (({ client := defaultClient, basePath := str "/me", accessToken := str "tok",
          refreshToken := str "refresh" } : Session).accessToken = [] ↔ tok.AccessToken = []) :=
  (accessToken_after_refresh (tokenTransport tokenObjectText) sampleCodec
    (initialSession defaultClient (str "refresh"))).2.2.2 defaultClient (str "refresh")
    { client := defaultClient, basePath := str "/me", accessToken := str "tok",
      refreshToken := str "refresh" } (by decide)

/-! ### C19: a failed refresh -/

/-- C19: when the token request of `refreshAccessToken` fails, by a failed
round trip, by a response that `checkResponse` refuses, or by a body that does
not decode, that error is returned and the session keeps its access token, its
refresh token and its base path; whenever `refreshAccessToken` returns an
error the access token is as before; and `NewSession` then returns that error
and no session. -/
theorem refreshAccessToken_failure (rt : Transport) (codec : JSONCodec) (session : Session) :
    (∀ e, rt (tokenRequest session) = .error e →
      session.refreshAccessToken rt codec = (session.restored, some (.io e))) ∧
    (∀ res err, rt (tokenRequest session) = .ok res → checkResponse res = some err →
      session.refreshAccessToken rt codec = (session.restored, some err)) ∧
    (∀ res err, rt (tokenRequest session) = .ok res → checkResponse res = none →
      codec.decodeToken res.Body = .error err →
      session.refreshAccessToken rt codec = (session.restored, some err)) ∧
    (∀ err, (session.refreshAccessToken rt codec).2 = some err →
      (session.refreshAccessToken rt codec).1.accessToken = session.accessToken ∧
      (session.accessToken = [] → (session.refreshAccessToken rt codec).1.accessToken = [])) ∧
    (∀ client refreshToken err,
      ((initialSession client refreshToken).refreshAccessToken rt codec).2 = some err →
      (NewSession rt codec client refreshToken).2 = .error err) := by
  refine ⟨?_, ?_, ?_, ?_, ?_⟩
  · intro e hrt
    rw [refreshAccessToken_cases, hrt]
  · intro res err hrt hcheck
    rw [refreshAccessToken_cases, hrt]
    simp only [hcheck]
  · intro res err hrt hcheck hdec
    rw [refreshAccessToken_cases, hrt]
    simp only [hcheck, hdec]
  · intro err herr
    rcases refreshAccessToken_outcome rt codec session with
      ⟨_, _, hsame, _⟩ | ⟨res, tok, hnone, _⟩
    · exact ⟨hsame, fun h => hsame.trans h⟩
    · rw [hnone] at herr
      cases herr
  · intro client refreshToken err herr
    rw [NewSession_eq]
    simp only [herr]

/-- Witness for C19: with the network down, `NewSession` returns the error of
the round trip and no session. -/
theorem refreshAccessToken_failure_witness :
    (NewSession downTransport sampleCodec defaultClient (str "refresh")).2
      = .error (.io ⟨str "dial tcp: connection refused"⟩) :=
  (refreshAccessToken_failure downTransport sampleCodec
    (initialSession defaultClient (str "refresh"))).2.2.2.2 defaultClient (str "refresh")
    (.io ⟨str "dial tcp: connection refused"⟩) (by decide)

/-! ### C17: the payload of a request -/

/-- C17, as stated, fails: on the form-encoded client the empty `url.Values`,
a non-nil body, gives a request with an empty payload. -/
theorem NewRequest_empty_values_empty_payload :
    (formClient.NewRequest (str "POST") DefaultOAuthTokenURL
      (some ⟨some [], .ok (str "null")⟩)).map (fun req => req.Body) = .ok [] := by
  decide

/-- C17, amended: for a client whose media type is `application/json` or
`application/x-www-form-urlencoded` and every non-nil body, a request that
`Client.NewRequest` builds has as its payload exactly the encoding of the body
for that media type: the JSON text for the first, and for the second the form
encoding of the body, which is then a `url.Values`; and a request built for
the nil body has an empty payload. -/
theorem NewRequest_payload (client : Client) (method path : GoString) (b : Payload)
    (req : Request)
    (hmedia : client.mediaType = str "application/json" ∨
      client.mediaType = str "application/x-www-form-urlencoded")
    (hreq : client.NewRequest method path (some b) = .ok req) :
    ((client.mediaType = str "application/json" ∧ b.json = .ok req.Body) ∨
     (client.mediaType = str "application/x-www-form-urlencoded" ∧
      ∃ v, b.asValues = some v ∧ req.Body = v.Encode)) ∧
    (∀ req0, client.NewRequest method path none = .ok req0 → req0.Body = []) := by
  have hne : str "application/x-www-form-urlencoded" ≠ str "application/json" := by decide
  obtain ⟨pathURL, payload, u, _, henc, _, rfl⟩ := NewRequest_ok _ _ _ _ _ hreq
  refine ⟨?_, ?_⟩
  · rcases hmedia with hjson | hform
    · left
      simp only [Client.encodeBody, hjson, if_true] at henc
      cases hj : b.json with
      | error e => rw [hj] at henc; cases henc
      | ok text =>
        rw [hj] at henc
        simp only [Except.ok.injEq] at henc
        exact ⟨hjson, by rw [henc]⟩
    · right
      simp only [Client.encodeBody, hform, hne, if_false, if_true] at henc
      cases hv : b.asValues with
      | none => rw [hv] at henc; cases henc
      | some v =>
        rw [hv] at henc
        simp only [Except.ok.injEq] at henc
        exact ⟨hform, v, rfl, henc.symm⟩
  · intro req0 hreq0
    obtain ⟨_, payload0, _, _, henc0, _, rfl⟩ := NewRequest_ok _ _ _ _ _ hreq0
    simp only [Client.encodeBody, Except.ok.injEq] at henc0
    exact henc0.symm

/-- Witness for C17: on the form-encoded client the payload of the refresh
form is its form encoding. -/
theorem NewRequest_payload_witness :
    (formClient.mediaType = str "application/json" ∧
      (⟨some unauthenticatedSession.refreshBody, .ok []⟩ : Payload).json
        = .ok (tokenRequest unauthenticatedSession).Body) ∨
    (formClient.mediaType = str "application/x-www-form-urlencoded" ∧
      ∃ v, (⟨some unauthenticatedSession.refreshBody, .ok []⟩ : Payload).asValues = some v ∧
        (tokenRequest unauthenticatedSession).Body = v.Encode) :=
  (NewRequest_payload formClient (str "POST") DefaultOAuthTokenURL
    ⟨some unauthenticatedSession.refreshBody, .ok []⟩ (tokenRequest unauthenticatedSession)
    (Or.inr (by decide)) (refresh_NewRequest unauthenticatedSession (.ok []))).1

/-- The case that the amended C17 leaves out: for a media type other than
the two that `Client.NewRequest` knows, a non-nil body is not encoded at all
and the request is built with an empty payload. -/
theorem NewRequest_unknown_media_type_drops_body :
    (plainTextClient.NewRequest (str "POST") (str "/me/events")
      (some ⟨none, .ok (str "null")⟩)).map (fun req => req.Body) = .ok [] := by
  decide

/-! ### C18: a refused response -/

/-- The function `checkResponse` returns nil exactly for the status codes in
`[200,300)`. -/
theorem checkResponse_eq_none_iff (res : Response) :
    checkResponse res = none ↔ isSuccess res.StatusCode := by
  unfold checkResponse isSuccess ReadAll
  by_cases hs : res.StatusCode ≥ 200 ∧ res.StatusCode < 300
  · simp [hs]
  · cases hb : res.Body.err with
    | none => simp [hs, hb]
    | some err => simp [hs, hb]

/-- C18: for every response whose status is outside `[200,300)`,
`checkResponse` returns an error, and `Client.Do` returns the response with
that error after one round trip, leaving the target untouched whatever it is:
nothing is copied to it and nothing is decoded into it. -/
theorem Do_refused_response (rt : Transport) (req : Request) (v : Target) (res : Response)
    (hrt : rt req = .ok res) (hstatus : ¬ isSuccess res.StatusCode) :
    ∃ err, checkResponse res = some err ∧
      Client.Do rt req v
        = { response := some res, err := some err, effect := .untouched, sent := [req] } := by
  cases hcheck : checkResponse res with
  | none => exact absurd ((checkResponse_eq_none_iff res).mp hcheck) hstatus
  | some err =>
    refine ⟨err, rfl, ?_⟩
    unfold Client.Do
    rw [hrt]
    simp only [hcheck]

/-- Witness for C18: a `404` answer to a request with a JSON target. -/
theorem Do_refused_response_witness :
    ∃ err, checkResponse { StatusCode := 404, Body := { data := str "Not Found" } } = some err ∧
      Client.Do notFoundTransport (tokenRequest unauthenticatedSession)
          (.value (fun _ => none))
        = { response := some { StatusCode := 404, Body := { data := str "Not Found" } },
            err := some err, effect := .untouched,
            sent := [tokenRequest unauthenticatedSession] } :=
  Do_refused_response notFoundTransport (tokenRequest unauthenticatedSession)
    (.value (fun _ => none)) { StatusCode := 404, Body := { data := str "Not Found" } }
    rfl (by decide)

/-! ### The host of a rooted path -/

/-- The function `setPath` leaves the host alone. -/
theorem setPath_Host (u u2 : url.URL) (p : GoString) (h : url.setPath u p = .ok u2) :
    u2.Host = u.Host := by
  unfold url.setPath at h
  cases hun : url.unescape .encodePath p with
  | error e => rw [hun] at h; cases h
  | ok path =>
    rw [hun] at h
    simp only [Except.map, Except.ok.injEq] at h
    rw [← h]

/-- The function `setFragment` leaves the host alone. -/
theorem setFragment_Host (u u2 : url.URL) (f : GoString)
    (h : url.setFragment u f = .ok u2) : u2.Host = u.Host := by
  unfold url.setFragment at h
  cases hun : url.unescape .encodeFragment f with
  | error e => rw [hun] at h; cases h
  | ok frag =>
    rw [hun] at h
    simp only [Except.map, Except.ok.injEq] at h
    rw [← h]

/-- Without a scheme, a text that begins with one `/` only has no authority:
the second half of `parse` leaves the host alone. -/
theorem parseAfterQuery_rooted (u u2 : url.URL) (c : Byte) (t : GoString)
    (hs : u.Scheme = []) (hc : c ≠ ch '/')
    (h : url.parseAfterQuery u (ch '/' :: c :: t) = .ok u2) : u2.Host = u.Host := by
  have h1 : url.startsWith (ch '/' :: c :: t) (str "/") = true := by
    have : str "/" = [ch '/'] := by decide
    simp [url.startsWith, this]
  have h2 : url.startsWith (ch '/' :: c :: t) (str "//") = false := by
    have : str "//" = [ch '/', ch '/'] := by decide
    have hc2 : ¬ ch '/' = c := fun e => hc e.symm
    simp [url.startsWith, this, List.isPrefixOf, hc2]
  unfold url.parseAfterQuery at h
  simp only [h1, h2, hs, Bool.not_true, Bool.false_and, Bool.and_false, Bool.false_eq_true,
    if_false] at h
  exact (setPath_Host _ _ _ h).trans rfl

/-- A text that begins with one `/` only parses to a URL without host. -/
theorem parse_rooted (c : Byte) (t : GoString) (u : url.URL)
    (hc : c ≠ ch '/' ∧ c ≠ ch '?')
    (h : url.parse (ch '/' :: c :: t) = .ok u) : u.Host = [] := by
  have hstar : ¬ (ch '/' :: c :: t) = str "*" := by
    have : str "*" = [ch '*'] := by decide
    simp [this]
  have hsch : url.getScheme (ch '/' :: c :: t) = .ok ([], ch '/' :: c :: t) := by
    have h1 : ¬ ((ch 'a' ≤ ch '/' ∧ ch '/' ≤ ch 'z') ∨ (ch 'A' ≤ ch '/' ∧ ch '/' ≤ ch 'Z')) := by
      decide
    have h2 : ¬ ((ch '0' ≤ ch '/' ∧ ch '/' ≤ ch '9') ∨ ch '/' = ch '+' ∨ ch '/' = ch '-' ∨
        ch '/' = ch '.') := by decide
    have h3 : ¬ ch '/' = ch ':' := by decide
    simp only [url.getScheme, url.getSchemeLoop, h1, h2, h3, if_false]
  have hq1 : ¬ ch '/' = ch '?' := by decide
  unfold url.parse at h
  split_ifs at h with hctl
  rw [hsch] at h
  simp only [] at h
  have hlow : url.toLower [] = [] := rfl
  by_cases hforce : ((ch '/' :: c :: t).getLast? = some (ch '?') &&
      (ch '/' :: c :: t).count (ch '?') = 1) = true
  · simp only [hforce, if_true] at h
    cases ht : t with
    | nil =>
      rw [ht] at hforce
      simp [hc.2] at hforce
    | cons a as =>
      rw [ht] at h
      have hd : (ch '/' :: c :: a :: as).dropLast = ch '/' :: c :: (a :: as).dropLast := rfl
      rw [hd] at h
      exact (parseAfterQuery_rooted _ _ c _ hlow hc.1 h).trans rfl
  · simp only [hforce, if_false] at h
    have hcut : (cut (ch '?') (ch '/' :: c :: t)).1 = ch '/' :: c :: (cut (ch '?') t).1 := by
      simp [cut, hq1, hc.2]
    rw [hcut] at h
    exact (parseAfterQuery_rooted _ _ c _ hlow hc.1 h).trans rfl

/-- A link that begins with one `/` only parses to a URL without host name. -/
theorem Parse_rooted (c : Byte) (t : GoString) (u : url.URL)
    (hc : c ≠ ch '/' ∧ c ≠ ch '?' ∧ c ≠ ch '#')
    (h : url.Parse (ch '/' :: c :: t) = .ok u) : u.Hostname = [] := by
  have hq1 : ¬ ch '/' = ch '#' := by decide
  have hcut : (cut (ch '#') (ch '/' :: c :: t)).1 = ch '/' :: c :: (cut (ch '#') t).1 := by
    simp [cut, hq1, hc.2.2]
  have hhost : u.Host = [] := by
    unfold url.Parse at h
    simp only [hcut] at h
    cases hp : url.parse (ch '/' :: c :: (cut (ch '#') t).1) with
    | error e => rw [hp] at h; cases h
    | ok u0 =>
      rw [hp] at h
      simp only [] at h
      have h0 := parse_rooted c _ u0 ⟨hc.1, hc.2.1⟩ hp
      split_ifs at h
      · simp only [Except.ok.injEq] at h
        rw [← h]
        exact h0
      · rw [setFragment_Host _ _ _ h]
        exact h0
  unfold url.URL.Hostname
  rw [hhost]
  rfl

/-! ### C16: an authenticated call -/

/-- The method `Client.Do` hands its request to the network once. -/
theorem Do_sent (rt : Transport) (req : Request) (v : Target) :
    (Client.Do rt req v).sent = [req] := by
  unfold Client.Do
  cases rt req with
  | error e => rfl
  | ok res =>
    simp only []
    cases checkResponse res with
    | some err => rfl
    | none => cases v <;> rfl

/-- C16: for a session with the base path `/me` and a non-empty access token,
`Session.query` asks `Client.NewRequest` for the path `/me`, followed by the
relative path, followed by `createQueryString(params)` (by nothing when
`params` is nil); an error of `Client.NewRequest` is returned as it is; and a
request that is built targets the client's base URL followed by that path, is
given the header `Authorization` with the single value `Bearer ` followed by
the access token, and is handed to `Client.Do`, which sends it once. -/
theorem query_authenticated (rt : Transport) (session : Session) (method relPath : GoString)
    (params : Params) (data : Body) (result : Target)
    (hbase : session.basePath = str "/me") (htoken : session.accessToken ≠ []) :
    session.fullPath relPath params
      = str "/me" ++ relPath ++ (match params with
          | none => []
          | some entries => createQueryString (some entries)) ∧
    (∀ err, session.client.NewRequest method (session.fullPath relPath params) data = .error err →
      session.query rt method relPath params data result = { response := none, err := some err }) ∧
    (∀ req, session.client.NewRequest method (session.fullPath relPath params) data = .ok req →
      (∃ u, url.Parse (session.client.baseURL ++ session.fullPath relPath params) = .ok u ∧
        req.URL = storedURL u) ∧
      session.query rt method relPath params data result
        = Client.Do rt (req.authorized session.accessToken) result ∧
      (session.query rt method relPath params data result).sent
        = [req.authorized session.accessToken] ∧
      (req.authorized session.accessToken).Header.index (str "Authorization")
        = [str "Bearer " ++ session.accessToken] ∧
      (req.authorized session.accessToken).URL = req.URL ∧
      (req.authorized session.accessToken).Method = req.Method ∧
      (req.authorized session.accessToken).Body = req.Body) := by
  have hpath : session.fullPath relPath params
      = str "/me" ++ relPath ++ (match params with
          | none => []
          | some entries => createQueryString (some entries)) := by
    unfold Session.fullPath
    rw [hbase]
    cases params <;> rfl
  have hq : ∀ r, session.client.NewRequest method (session.fullPath relPath params) data = r →
      session.query rt method relPath params data result =
        match r with
        | .error err => { response := none, err := some err }
        | .ok req => Client.Do rt (req.authorized session.accessToken) result := by
    intro r hr
    simp only [Session.query, Session.fullPath, htoken, if_false, Request.authorized] at hr ⊢
    rw [hr]
  refine ⟨hpath, ?_, ?_⟩
  · intro err herr
    rw [hq _ herr]
  · intro req hreq
    refine ⟨?_, hq _ hreq, ?_, ?_, rfl, rfl, rfl⟩
    · obtain ⟨pathURL, payload, u, hp, _, hu, rfl⟩ := NewRequest_ok _ _ _ _ _ hreq
      have hrooted : ∃ rest, session.fullPath relPath params = ch '/' :: ch 'm' :: rest := by
        have hme : str "/me" = [ch '/', ch 'm', ch 'e'] := by decide
        unfold Session.fullPath
        rw [hbase, hme]
        exact ⟨_, rfl⟩
      obtain ⟨rest, hrest⟩ := hrooted
      have hhost : pathURL.Hostname = [] := by
        rw [hrest] at hp
        exact Parse_rooted (ch 'm') _ pathURL (by decide) hp
      simp only [Client.targetText, hhost, ne_eq, not_true_eq_false, if_false] at hu
      exact ⟨u, hu, rfl⟩
    · rw [hq _ hreq]
      exact Do_sent _ _ _
    · rw [Request.authorized, Values.Set, Values.index_store]
      simp

/-- Witness for C16: the authenticated session lists its calendars with
`$top=10`; the request goes to `/v1.0/me/calendars?%24top=10` on the base URL
with the bearer token. -/
theorem query_authenticated_witness :
    (authenticatedSession.query okTransport (str "GET") (str "/calendars")
      (some [(str "$top", .int 10)]) none .nil).sent
      = [calendarsRequest.authorized authenticatedSession.accessToken] :=
  ((query_authenticated okTransport authenticatedSession (str "GET") (str "/calendars")
    (some [(str "$top", .int 10)]) none .nil rfl (by decide)).2.2 calendarsRequest
    (by decide)).2.2.1

/-! ### The order of the keys -/

/-- Any two strings are comparable. -/
theorem strLE_total (a b : GoString) : strLE a b = true ∨ strLE b a = true := by
  induction a generalizing b with
  | nil => exact Or.inl rfl
  | cons x xs ih =>
    cases b with
    | nil => exact Or.inr rfl
    | cons y ys =>
      simp only [strLE]
      rcases lt_trichotomy x y with h | h | h
      · simp [h]
      · subst h
        simpa using ih ys
      · simp [h, not_lt.mpr (le_of_lt h)]

/-- The order on strings is transitive. -/
theorem strLE_trans (a b c : GoString) (hab : strLE a b = true) (hbc : strLE b c = true) :
    strLE a c = true := by
  induction a generalizing b c with
  | nil => rfl
  | cons x xs ih =>
    cases b with
    | nil => simp [strLE] at hab
    | cons y ys =>
      cases c with
      | nil => simp [strLE] at hbc
      | cons z zs =>
        simp only [strLE] at hab hbc ⊢
        by_cases hxy : x < y
        · by_cases hyz : y < z
          · simp [lt_trans hxy hyz]
          · simp only [hyz, if_false] at hbc
            by_cases hzy : z < y
            · simp [hzy] at hbc
            · have hyz2 : y = z := le_antisymm (not_lt.mp hzy) (not_lt.mp hyz)
              subst hyz2
              simp [hxy]
        · simp only [hxy, if_false] at hab
          by_cases hyx : y < x
          · simp [hyx] at hab
          · have hxy2 : x = y := le_antisymm (not_lt.mp hyx) (not_lt.mp hxy)
            subst hxy2
            simp only [hyx, if_false] at hab
            by_cases hxz : x < z
            · simp [hxz]
            · simp only [hxz, if_false] at hbc ⊢
              by_cases hzx : z < x
              · simp [hzx] at hbc
              · simp only [hzx, if_false] at hbc ⊢
                exact ih ys zs hab hbc

/-- The order on strings is antisymmetric. -/
theorem strLE_antisymm (a b : GoString) (hab : strLE a b = true) (hba : strLE b a = true) :
    a = b := by
  induction a generalizing b with
  | nil =>
    cases b with
    | nil => rfl
    | cons y ys => simp [strLE] at hba
  | cons x xs ih =>
    cases b with
    | nil => simp [strLE] at hab
    | cons y ys =>
      simp only [strLE] at hab hba
      by_cases hxy : x < y
      · simp [hxy, not_lt.mpr (le_of_lt hxy)] at hba
      · by_cases hyx : y < x
        · simp [hxy, hyx] at hab
        · have hxy2 : x = y := le_antisymm (not_lt.mp hyx) (not_lt.mp hxy)
          subst hxy2
          simp only [hxy, if_false] at hab hba
          rw [ih ys hab hba]

/-- The function `sortStrings` returns its argument in ascending order. -/
theorem sortStrings_sorted (keys : List GoString) : (sortStrings keys).Sorted keyLE := by
  haveI : IsTotal GoString keyLE := ⟨strLE_total⟩
  haveI : IsTrans GoString keyLE := ⟨strLE_trans⟩
  exact List.sorted_insertionSort keyLE keys

/-- A list in ascending order that is a permutation of the keys is what
`sortStrings` returns. -/
theorem eq_sortStrings (keys sorted : List GoString) (hperm : sorted.Perm keys)
    (hsorted : sorted.Sorted keyLE) : sorted = sortStrings keys := by
  haveI : IsAntisymm GoString keyLE := ⟨strLE_antisymm⟩
  exact List.eq_of_perm_of_sorted
    (hperm.trans (List.perm_insertionSort _ keys).symm) hsorted (sortStrings_sorted keys)

/-- The entries of a mapping can be put in ascending order of key. -/
theorem exists_sorted_entries (entries : List (GoString × GoValue)) :
    ∃ sorted : List (GoString × GoValue), sorted.Perm entries ∧
      (sorted.map Prod.fst).Sorted keyLE := by
  haveI : IsTotal (GoString × GoValue) (fun a b => keyLE a.1 b.1) :=
    ⟨fun a b => strLE_total a.1 b.1⟩
  haveI : IsTrans (GoString × GoValue) (fun a b => keyLE a.1 b.1) :=
    ⟨fun a b c => strLE_trans a.1 b.1 c.1⟩
  refine ⟨entries.insertionSort (fun a b => keyLE a.1 b.1), List.perm_insertionSort _ _, ?_⟩
  have h := List.sorted_insertionSort (fun (a b : GoString × GoValue) => keyLE a.1 b.1) entries
  exact List.pairwise_map.mpr h

/-! ### C20: the query string does not depend on the enumeration order -/

/-- The query string of a mapping, written with any arrangement of its
entries in ascending order of key. -/
theorem createQueryString_of_sorted (entries sorted : List (GoString × GoValue))
    (hnodup : (entries.map Prod.fst).Nodup) (hperm : sorted.Perm entries)
    (hsorted : (sorted.map Prod.fst).Sorted keyLE) :
    createQueryString (some entries)
      = if entries = [] then []
        else ch '?' :: joinAmp (sorted.map (fun kv => pairText kv.1 (sprintV kv.2))) := by
  cases hentries : entries with
  | nil => rfl
  | cons e es =>
    rw [← hentries]
    have hne : entries ≠ [] := by simp [hentries]
    rw [if_neg hne]
    have hq : queryOf (some entries)
        = entries.foldl (fun (query : Values) kv => query.Set kv.1 (sprintV kv.2)) [] := rfl
    have hsingle := queryOf_single (some entries)
    have hkeys : (sorted.map Prod.fst).Perm ((queryOf (some entries)).map Prod.fst) := by
      refine (hperm.map Prod.fst).trans ?_
      refine (List.perm_ext_iff_of_nodup hnodup hsingle.1).mpr (fun k => ?_)
      rw [hq, mem_keys_foldl_Set]
      simp
    have hks := eq_sortStrings _ _ hkeys hsorted
    have hcqs : createQueryString (some entries) = ch '?' :: (queryOf (some entries)).Encode := by
      rw [hentries]
      exact (queryString_of_cons e es).2
    rw [hcqs, Encode_eq_joinAmp _ hsingle, ← hks, List.map_map]
    congr 2
    apply List.map_congr_left
    intro kv hkv
    have hmem : (kv.1, kv.2) ∈ entries := hperm.mem_iff.mp hkv
    have hidx := index_foldl_Set_of_mem entries [] kv.1 kv.2 hnodup hmem
    simp only [Function.comp, Values.Get, hq, hidx]

/-- C20: for two enumerations of the same entries of a mapping (lists that
are permutations of each other, with distinct keys), `createQueryString`
returns the same string; and the string is empty for the empty mapping and
otherwise `?` followed by the texts `key=value` of the entries, each key and
each value percent-encoded by `url.QueryEscape`, in strictly ascending order
of key and joined by `&`. -/
theorem createQueryString_order_independent (entries1 entries2 : List (GoString × GoValue))
    (hperm : entries1.Perm entries2) (hnodup : (entries1.map Prod.fst).Nodup) :
    createQueryString (some entries1) = createQueryString (some entries2) ∧
    ∃ sorted : List (GoString × GoValue), sorted.Perm entries1 ∧
      (sorted.map Prod.fst).Pairwise (fun a b => strLE a b = true ∧ a ≠ b) ∧
      createQueryString (some entries1)
        = if entries1 = [] then []
          else ch '?' :: joinAmp (sorted.map
            (fun kv => url.QueryEscape kv.1 ++ ch '=' :: url.QueryEscape (sprintV kv.2))) := by
  obtain ⟨sorted, hs1, hs2⟩ := exists_sorted_entries entries1
  have hnodup2 : (entries2.map Prod.fst).Nodup := (hperm.map Prod.fst).nodup_iff.mp hnodup
  have h1 := createQueryString_of_sorted entries1 sorted hnodup hs1 hs2
  have h2 := createQueryString_of_sorted entries2 sorted hnodup2 (hs1.trans hperm) hs2
  have hnil : entries1 = [] ↔ entries2 = [] := by
    constructor
    · intro h
      rw [h] at hperm
      exact List.perm_nil.mp hperm.symm
    · intro h
      rw [h] at hperm
      exact List.perm_nil.mp hperm
  refine ⟨?_, sorted, hs1, ?_, h1⟩
  · rw [h1, h2]
    simp only [hnil]
  · have hnd : (sorted.map Prod.fst).Nodup := (hs1.map Prod.fst).nodup_iff.mpr hnodup
    exact List.Pairwise.and hs2 hnd

/-- Witness for C20: two enumeration orders of the parameters of a list call
give the same query string. -/
theorem createQueryString_order_independent_witness :
    createQueryString (some [(str "$top", .int 10), (str "$count", .bool true)])
      = createQueryString (some [(str "$count", .bool true), (str "$top", .int 10)]) :=
  (createQueryString_order_independent
    [(str "$top", .int 10), (str "$count", .bool true)]
    [(str "$count", .bool true), (str "$top", .int 10)]
    (List.Perm.swap _ _ _) (by decide)).1

/-! ### C21: the query parameters of the list calls -/

/-- The parameters of a list call without next link are as claimed. -/
theorem claimed_without_skip (maxResults : Int) :
    listParamsAsClaimed [(str "$top", .int maxResults), (str "$count", .bool true)]
      maxResults [] := by
  have h1 : ¬ str "$top" = str "$count" := by decide
  have h2 : ¬ str "$top" = str "$skip" := by decide
  have h3 : ¬ str "$count" = str "$skip" := by decide
  have h1s : ¬ str "$count" = str "$top" := fun e => h1 e.symm
  have h2s : ¬ str "$skip" = str "$top" := fun e => h2 e.symm
  have h3s : ¬ str "$skip" = str "$count" := fun e => h3 e.symm
  refine ⟨?_, ?_, ?_, ?_, ?_⟩
  · simp [h1]
  · intro v
    simp [h1]
  · intro v
    simp [h1s]
  · simp [h2s, h3s]
  · intro h
    exact absurd rfl h

/-- The parameters of a list call with a next link are as claimed. -/
theorem claimed_with_skip (maxResults : Int) (nextLink value : GoString)
    (hlink : nextLink ≠ [])
    (hvalue : parsePageLink nextLink (str "$skip") = .returned value) :
    listParamsAsClaimed
      [(str "$top", .int maxResults), (str "$count", .bool true), (str "$skip", .string value)]
      maxResults nextLink := by
  have h1 : ¬ str "$top" = str "$count" := by decide
  have h2 : ¬ str "$top" = str "$skip" := by decide
  have h3 : ¬ str "$count" = str "$skip" := by decide
  have h1s : ¬ str "$count" = str "$top" := fun e => h1 e.symm
  have h2s : ¬ str "$skip" = str "$top" := fun e => h2 e.symm
  have h3s : ¬ str "$skip" = str "$count" := fun e => h3 e.symm
  refine ⟨?_, ?_, ?_, ?_, ?_⟩
  · simp [h1, h2, h3]
  · intro v
    simp [h1, h2]
  · intro v
    simp [h1s, h3]
  · simp [hlink]
  · intro _
    refine ⟨value, hvalue, fun v => ?_⟩
    simp [h2s, h3s]

/-- The assignment of `$skip` adds an entry after `$top` and `$count`. -/
theorem storeParam_skip (top count value : GoValue) :
    storeParam [(str "$top", top), (str "$count", count)] (str "$skip") value
      = [(str "$top", top), (str "$count", count), (str "$skip", value)] := by
  have h2 : ¬ str "$top" = str "$skip" := by decide
  have h3 : ¬ str "$count" = str "$skip" := by decide
  simp [storeParam, h2, h3]

/-- The method `CalendarListCall.Do`, case by case. -/
theorem CalendarListCall_Do_cases (rt : Transport) (decode : BodyStream → Option GoError)
    (clc : CalendarListCall) :
    clc.Do rt decode =
      if clc.nextLink = [] then
        .returned (listOutcome rt decode clc.service.session clc.service.basePath
          [(str "$top", .int clc.maxResults), (str "$count", .bool true)])
      else
        match parsePageLink clc.nextLink (str "$skip") with
        | .panicked msg => .panicked msg
        | .returned value =>
          .returned (listOutcome rt decode clc.service.session clc.service.basePath
            [(str "$top", .int clc.maxResults), (str "$count", .bool true),
              (str "$skip", .string value)]) := by
  unfold CalendarListCall.Do
  by_cases hlink : clc.nextLink = []
  · simp only [hlink, ne_eq, not_true_eq_false, if_false, if_true]
    rfl
  · simp only [hlink, ne_eq, not_false_eq_true, if_true, if_false]
    cases parsePageLink clc.nextLink (str "$skip") with
    | panicked msg => rfl
    | returned value =>
      simp only [storeParam_skip]
      rfl

/-- The method `FolderListCall.Do`, case by case. -/
theorem FolderListCall_Do_cases (rt : Transport) (decode : BodyStream → Option GoError)
    (flc : FolderListCall) :
    flc.Do rt decode =
      if flc.nextLink = [] then
        .returned (listOutcome rt decode flc.service.session flc.service.basePath
          [(str "$top", .int flc.maxResults), (str "$count", .bool true)])
      else
        match parsePageLink flc.nextLink (str "$skip") with
        | .panicked msg => .panicked msg
        | .returned value =>
          .returned (listOutcome rt decode flc.service.session flc.service.basePath
            [(str "$top", .int flc.maxResults), (str "$count", .bool true),
              (str "$skip", .string value)]) := by
  unfold FolderListCall.Do
  by_cases hlink : flc.nextLink = []
  · simp only [hlink, ne_eq, not_true_eq_false, if_false, if_true]
    rfl
  · simp only [hlink, ne_eq, not_false_eq_true, if_true, if_false]
    cases parsePageLink flc.nextLink (str "$skip") with
    | panicked msg => rfl
    | returned value =>
      simp only [storeParam_skip]
      rfl

/-- The outcomes of a list call, from its case analysis: it returns exactly
when the next link is empty or accepted by `url.Parse`, and then it has called
`Session.Get` once, on the base path of the service, with parameters as
claimed. -/
theorem list_call_outcome (rt : Transport) (decode : BodyStream → Option GoError)
    (session : Session) (basePath nextLink : GoString) (maxResults : Int)
    (result : Outcome ListCallOutcome)
    (hcases : result =
      if nextLink = [] then
        .returned (listOutcome rt decode session basePath
          [(str "$top", .int maxResults), (str "$count", .bool true)])
      else
        match parsePageLink nextLink (str "$skip") with
        | .panicked msg => .panicked msg
        | .returned value =>
          .returned (listOutcome rt decode session basePath
            [(str "$top", .int maxResults), (str "$count", .bool true),
              (str "$skip", .string value)])) :
    (∀ out, result = .returned out →
      ∃ params, out = listOutcome rt decode session basePath params ∧
        listParamsAsClaimed params maxResults nextLink) ∧
    ((∃ out, result = .returned out) ↔ (nextLink = [] ∨ ∃ u, url.Parse nextLink = .ok u)) := by
  by_cases hlink : nextLink = []
  · rw [if_pos hlink] at hcases
    refine ⟨?_, ?_⟩
    · intro out hout
      rw [hcases] at hout
      cases hout
      refine ⟨_, rfl, ?_⟩
      rw [hlink]
      exact claimed_without_skip maxResults
    · exact ⟨fun _ => Or.inl hlink, fun _ => ⟨_, hcases⟩⟩
  · rw [if_neg hlink] at hcases
    cases hp : parsePageLink nextLink (str "$skip") with
    | panicked msg =>
      rw [hp] at hcases
      refine ⟨?_, ?_⟩
      · intro out hout
        rw [hcases] at hout
        cases hout
      · constructor
        · rintro ⟨out, hout⟩
          rw [hcases] at hout
          cases hout
        · rintro (h | h)
          · exact absurd h hlink
          · obtain ⟨value, hv⟩ := (parsePageLink_returns_iff nextLink (str "$skip")).mpr h
            rw [hp] at hv
            cases hv
    | returned value =>
      rw [hp] at hcases
      refine ⟨?_, ?_⟩
      · intro out hout
        rw [hcases] at hout
        cases hout
        exact ⟨_, rfl, claimed_with_skip maxResults nextLink value hlink hp⟩
      · exact ⟨fun _ => Or.inr ((parsePageLink_returns_iff nextLink (str "$skip")).mp
          ⟨value, hp⟩), fun _ => ⟨_, hcases⟩⟩

/-- C21: whenever the calendar list call or the folder list call calls
`Session.Get`, it does so on the base path of its service with query
parameters whose keys are distinct, in which `$top` is the configured page
size (10 after `List`, the argument after `MaxResults`) and `$count` is
`true`, and which contain `$skip` if and only if the next link is not empty,
bound then to the string that `parsePageLink(nextLink, "$skip")` returns,
empty or not; and the call reaches `Session.Get` exactly when the next link is
empty or accepted by `url.Parse` (otherwise `parsePageLink` panics). -/
theorem list_call_params (rt : Transport) (decode : BodyStream → Option GoError)
    (clc : CalendarListCall) (flc : FolderListCall) :
    ((∀ out, clc.Do rt decode = .returned out →
        ∃ params, out = listOutcome rt decode clc.service.session clc.service.basePath params ∧
          listParamsAsClaimed params clc.maxResults clc.nextLink) ∧
      ((∃ out, clc.Do rt decode = .returned out) ↔
        (clc.nextLink = [] ∨ ∃ u, url.Parse clc.nextLink = .ok u))) ∧
    ((∀ out, flc.Do rt decode = .returned out →
        ∃ params, out = listOutcome rt decode flc.service.session flc.service.basePath params ∧
          listParamsAsClaimed params flc.maxResults flc.nextLink) ∧
      ((∃ out, flc.Do rt decode = .returned out) ↔
        (flc.nextLink = [] ∨ ∃ u, url.Parse flc.nextLink = .ok u))) ∧
    (∀ (session : Session) (pageSize : Int) (link : GoString),
      session.Calendars.List.maxResults = 10 ∧ session.Folders.List.maxResults = 10 ∧
      session.Calendars.List.nextLink = [] ∧ session.Folders.List.nextLink = [] ∧
      ((session.Calendars.List.MaxResults pageSize).NextLink link).maxResults = pageSize ∧
      ((session.Folders.List.MaxResults pageSize).NextLink link).maxResults = pageSize ∧
      ((session.Calendars.List.MaxResults pageSize).NextLink link).nextLink = link ∧
      ((session.Folders.List.MaxResults pageSize).NextLink link).nextLink = link ∧
      (session.Calendars.List.NextLink link).maxResults = 10 ∧
      (session.Folders.List.NextLink link).maxResults = 10) :=
  ⟨list_call_outcome rt decode clc.service.session clc.service.basePath clc.nextLink
      clc.maxResults _ (CalendarListCall_Do_cases rt decode clc),
    list_call_outcome rt decode flc.service.session flc.service.basePath flc.nextLink
      flc.maxResults _ (FolderListCall_Do_cases rt decode flc),
    fun _ _ _ => ⟨rfl, rfl, rfl, rfl, rfl, rfl, rfl, rfl, rfl, rfl⟩⟩

/-- Witness for C21: a folder list call whose next link has no `$skip` calls
`Session.Get` with `$skip` bound to the empty string. -/
theorem list_call_params_witness :
    ∃ out params,
      (authenticatedSession.Folders.List.NextLink (str "https://.../x?$top=10")).Do
        okTransport (fun _ => none) = .returned out ∧
      out.getParams = some params ∧ out.getPath = str "/mailFolders" ∧
      (str "$top", GoValue.int 10) ∈ params ∧ (str "$count", GoValue.bool true) ∈ params ∧
      (str "$skip", GoValue.string []) ∈ params := by
  have h := (list_call_params okTransport (fun _ => none) authenticatedSession.Calendars.List
    (authenticatedSession.Folders.List.NextLink (str "https://.../x?$top=10"))).2.1
  obtain ⟨out, hout⟩ := h.2.mpr
    (Or.inr ⟨{ Scheme := str "https", Host := str "...", Path := str "/x",
               RawQuery := str "$top=10" }, by decide⟩)
  obtain ⟨params, hparams, _, htop, hcount, _, hskip⟩ := h.1 out hout
  obtain ⟨value, hvalue, hbound⟩ := hskip (by decide)
  have hempty : parsePageLink (str "https://.../x?$top=10") (str "$skip") = .returned [] := by
    decide
  have hv : value = [] := by
    have h2 : parsePageLink (str "https://.../x?$top=10") (str "$skip") = .returned value :=
      hvalue
    rw [hempty] at h2
    cases h2
    rfl
  subst hv
  refine ⟨out, params, hout, ?_, ?_, (htop _).mpr rfl, (hcount _).mpr rfl, (hbound _).mpr rfl⟩
  · rw [hparams]
    rfl
  · rw [hparams]
    rfl

/-- A list call whose next link is refused by `url.Parse` does not reach
`Session.Get`: the panic of `parsePageLink` ends it. -/
theorem list_call_panics_on_malformed_next_link :
    (authenticatedSession.Calendars.List.NextLink (str ":")).Do okTransport (fun _ => none)
      = .panicked "runtime error: invalid memory address or nil pointer dereference" ∧
    (authenticatedSession.Folders.List.NextLink (str ":")).Do okTransport (fun _ => none)
      = .panicked "runtime error: invalid memory address or nil pointer dereference" := by
  decide

end Outlook
